import Mathlib

/-!
Verification of the route-resolution and caching subsystem of the
UnisonMap backend.

The Python modules `app/services/cache_service.py`,
`app/services/ors_routing.py` and `app/services/rutas.py` are shallowly
embedded below.  Asynchronous methods become pure state-passing
functions; Python exceptions become `Except`; `None` becomes `Option`;
Python floats are modelled as rationals (the arithmetic the code performs
on them — comparisons, sums of weights, multiplication by powers of two —
is exact on IEEE doubles in the ranges involved, so the rational model is
faithful); dictionaries become association lists preserving insertion
order, as CPython dicts do.
-/

namespace UnisonMap

/-! ## Cache backends: `app/services/cache_service.py`

A per-key lock is modelled by its observable state.  For the Redis
backend the state of a lock key is `Option String` (the stored token, or
`none` when the key is absent).  For the SQLite backend the state is the
registry `self._locks`, an insertion-ordered dictionary from key to an
`asyncio.Lock`, of which only the `locked()` bit is observable; we model
it as an association list `List (String × Bool)`. -/

/-- Observable outcome of one `acquire_lock` coroutine call: either the
coroutine returns to its caller (with a token or `none`), or it suspends,
waiting for the current holder to release the lock. -/
inductive LockAcquireOutcome where
  | returns (tok : Option String)
  | waits
deriving DecidableEq

/-- Lookup in an association list (CPython `dict.get`). -/
def lookupKey {α β : Type} [DecidableEq α] : List (α × β) → α → Option β
  | [], _ => none
  | (k, v) :: rest, key => if k = key then some v else lookupKey rest key

/-- Replace the value stored under `key` when present, keeping insertion
order (CPython in-place dict assignment for an existing key). -/
def setKey {α β : Type} [DecidableEq α] : List (α × β) → α → β → List (α × β)
  | [], _, _ => []
  | (k, v) :: rest, key, newV =>
      if k = key then (k, newV) :: rest else (k, v) :: setKey rest key newV

/-- CPython dict assignment `d[key] = v` for arbitrary keys: replace in
place when present, append otherwise. -/
def assignKey {α β : Type} [DecidableEq α] (l : List (α × β)) (key : α) (v : β) :
    List (α × β) :=
  match lookupKey l key with
  | some _ => setKey l key v
  | none => l ++ [(key, v)]

/-- `RedisCache.acquire_lock` (cache_service.py lines 117-121):
`SET lock_key token NX EX ttl`; returns the fresh token if the key was
absent, `None` if it was already set.  First component: outcome observed
by the caller; second: the new state of the lock key. -/
def RedisCache.acquire_lock (lockValue : Option String) (freshToken : String) :
    LockAcquireOutcome × Option String :=
  match lockValue with
  | none => (.returns (some freshToken), some freshToken)
  | some v => (.returns none, some v)

/-- `RedisCache.release_lock` (cache_service.py lines 123-130): the Lua
script deletes the key only when its stored value equals the supplied
token (atomic compare-and-delete). -/
def RedisCache.release_lock (lockValue : Option String) (tok : String) :
    Option String :=
  match lockValue with
  | some v => if v = tok then none else some v
  | none => none

/-- `SQLiteCache.acquire_lock` (cache_service.py lines 196-203): gets or
lazily creates the per-key `asyncio.Lock`, then `await lock.acquire()`.
`asyncio.Lock.acquire` suspends while the lock is held and returns `True`
once it has been acquired, so the method returns the key as token when
the lock is free and otherwise waits.  Second component: the new lock
registry. -/
def SQLiteCache.acquire_lock (locks : List (String × Bool)) (key : String) :
    LockAcquireOutcome × List (String × Bool) :=
  match lookupKey locks key with
  | some true => (.waits, locks)
  | some false => (.returns (some key), setKey locks key true)
  | none => (.returns (some key), locks ++ [(key, true)])

/-- `asyncio.Lock.release`: raises `RuntimeError` when the lock is not
acquired, otherwise marks it unlocked. -/
def asyncioLockRelease (locked : Bool) : Except String Bool :=
  if locked then .ok false else .error "RuntimeError: Lock is not acquired."

/-- `SQLiteCache.release_lock` (cache_service.py lines 205-208):
`lock = self._locks.get(key); if lock and lock.locked(): lock.release()`.
The `token` parameter is accepted but never inspected. -/
def SQLiteCache.release_lock (locks : List (String × Bool)) (key : String)
    (tok : String) : Except String (List (String × Bool)) :=
  match lookupKey locks key with
  | some true =>
      match asyncioLockRelease true with
      | .ok newHeld => .ok (setKey locks key newHeld)
      | .error e => .error e
  | _ => .ok locks

/-! ## TTL resolution: `_resolve_cache_ttl` (ors_routing.py lines 250-261) -/

/-- The two cache TTL settings read from `app/core/config.py`. -/
structure CacheSettings where
  CACHE_TTL_SECONDS : Int
  CACHE_MAX_TTL_SECONDS : Int
deriving DecidableEq

/-- `_resolve_cache_ttl`: start from the configured default; an explicit
override replaces it after being clamped to `max(0, int(override))`; a
resulting TTL of 0 is returned as-is; otherwise the TTL is capped at
`CACHE_MAX_TTL_SECONDS`.  (The `except (TypeError, ValueError)` branch is
unreachable for an `int` override and is not modelled.) -/
def resolve_cache_ttl (s : CacheSettings) (override_ttl : Option Int) : Int :=
  let ttl := match override_ttl with
    | some o => max 0 o
    | none => s.CACHE_TTL_SECONDS
  if ttl = 0 then 0 else min ttl s.CACHE_MAX_TTL_SECONDS

/-- ASCII whitespace, the fragment of Python `str.isspace` / regex `\s`
relevant here. -/
def pyIsSpace (c : Char) : Bool :=
  c = ' ' ∨ c = '\t' ∨ c = '\n' ∨ c = '\r' ∨ c = '\x0b' ∨ c = '\x0c'

/-- Python `str.lstrip()`. -/
def lstripChars (l : List Char) : List Char := l.dropWhile pyIsSpace

/-- Python `str.rstrip()`. -/
def rstripChars (l : List Char) : List Char := (l.reverse.dropWhile pyIsSpace).reverse

/-- Python `str.strip()`. -/
def stripChars (l : List Char) : List Char := rstripChars (lstripChars l)

/-- Python `str.lower()` (ASCII fragment). -/
def lowerChars (l : List Char) : List Char := l.map Char.toLower

/-- Python `str.strip()` on a `String` (via its character list, so that
concrete instances evaluate). -/
def pyStrip (s : String) : String := String.mk (stripChars s.toList)

/-- Python `str.lower()` on a `String` (ASCII fragment). -/
def pyLower (s : String) : String := String.mk (lowerChars s.toList)

/-! ## JSON values

CPython JSON payloads: dictionaries are insertion-ordered association
lists, numbers are rationals (ints are the rationals with denominator 1,
mirroring the `int`/`float` distinction `json.loads` makes). -/

/-- A decoded JSON value. -/
inductive Json where
  | null
  | b (v : Bool)
  | num (q : ℚ)
  | str (s : String)
  | arr (items : List Json)
  | obj (fields : List (String × Json))

/-- CPython dict assignment `d[key] = v`: replaces in place when the key
exists, appends otherwise. -/
def dictSet (d : List (String × Json)) (key : String) (v : Json) :
    List (String × Json) :=
  match lookupKey d key with
  | some _ => setKey d key v
  | none => d ++ [(key, v)]

/-- CPython `dict.update` with an insertion-ordered mapping. -/
def dictUpdate (d : List (String × Json)) : List (String × Json) → List (String × Json)
  | [] => d
  | (k, v) :: rest => dictUpdate (dictSet d k v) rest

/-! ## Upstream client: `ORSService._hacer_peticion_ors`
(ors_routing.py lines 287-498) -/

/-- What one `httpx` POST attempt yields: a timeout, another transport
error, or a response.  `jsonBody = none` models a body on which
`response.json()` raises `JSONDecodeError`. -/
structure HttpResponse where
  status_code : Nat
  jsonBody : Option Json
  text : String

/-- Transport-level outcome of one attempt. -/
inductive HttpAttemptResult where
  | timeoutExc
  | requestExc
  | response (r : HttpResponse)

/-- Retry-relevant settings from `app/core/config.py`. -/
structure OrsRetrySettings where
  ORS_MAX_RETRIES : Int
  ORS_BACKOFF_FACTOR : ℚ

/-- `attempts = max(1, settings.ORS_MAX_RETRIES + 1)` (line 304). -/
def ors_attempts (s : OrsRetrySettings) : Nat := (max 1 (s.ORS_MAX_RETRIES + 1)).toNat

/-- `backoff_factor = max(0.0, settings.ORS_BACKOFF_FACTOR)` (line 305). -/
def ors_backoff (s : OrsRetrySettings) : ℚ := max 0 s.ORS_BACKOFF_FACTOR

/-- An `HTTPException`: status code plus a `detail` that is either a JSON
object or a bare string. -/
structure HttpErr where
  status_code : Nat
  detail : Json

/-- The seed dictionary of `_extract_ors_error_detail` (lines 103-107):
`code`, `message` and `ors_status` are always present. -/
def ors_detail_base (r : HttpResponse) : List (String × Json) :=
  [("code", .str "ors_error"),
   ("message", .str ("OpenRouteService devolvió estado " ++ toString r.status_code)),
   ("ors_status", .num r.status_code)]

/-- The overlay taken from a parsed `error` member of the body
(lines 118-130): message, upstream code and details when present and
well-typed. -/
def ors_detail_overlay_error (detail : List (String × Json))
    (fields : List (String × Json)) : List (String × Json) :=
  match lookupKey fields "error" with
  | some (.obj errFields) =>
      let d1 := match lookupKey errFields "message" with
        | some (.str m) => if pyStrip m ≠ "" then dictSet detail "message" (.str (pyStrip m)) else detail
        | _ => detail
      let d2 := match lookupKey errFields "code" with
        | some (.num n) => if n.den = 1 then dictSet d1 "ors_code" (.num n) else d1
        | some (.b v) => dictSet d1 "ors_code" (.b v)
        | some (.str c) => dictSet d1 "ors_code" (.str c)
        | _ => d1
      match lookupKey errFields "details" with
      | some (.arr xs) => dictSet d2 "details" (.arr xs)
      | some (.obj fs) => dictSet d2 "details" (.obj fs)
      | _ => d2
  | some (.str e) => if pyStrip e ≠ "" then dictSet detail "message" (.str (pyStrip e)) else detail
  | _ => detail

/-- The fallback fill-in for top-level `message`/`details` members
(lines 132-135); the `message` branch is dead because the seed always
carries one. -/
def ors_detail_fill_missing (detail : List (String × Json))
    (fields : List (String × Json)) : List (String × Json) :=
  let detail :=
    if (lookupKey detail "message").isNone then
      match lookupKey fields "message" with
      | some (.str m) => dictSet detail "message" (.str (pyStrip m))
      | _ => detail
    else detail
  if (lookupKey detail "details").isNone then
    match lookupKey fields "details" with
    | some (.arr xs) => dictSet detail "details" (.arr xs)
    | some (.obj fs) => dictSet detail "details" (.obj fs)
    | _ => detail
  else detail

/-- `_extract_ors_error_detail` (ors_routing.py lines 102-137): seeds
`code`/`message`/`ors_status`, then overlays upstream-provided message,
code and details when the body parses as a JSON object; an unparsable
body contributes a 200-character `raw` preview instead. -/
def extract_ors_error_detail (r : HttpResponse) : List (String × Json) :=
  match r.jsonBody with
  | none =>
      let preview := r.text.take 200
      if preview = "" then ors_detail_base r else dictSet (ors_detail_base r) "raw" (.str preview)
  | some (.obj fields) =>
      ors_detail_fill_missing (ors_detail_overlay_error (ors_detail_base r) fields) fields
  | some _ => ors_detail_base r

/-- Sleep before a retry on timeout/connection error:
`backoff_factor * 2 ** (attempt - 1)` (lines 336, 360). -/
def backoffSleep (bf : ℚ) (attempt : Nat) : ℚ := bf * 2 ^ (attempt - 1)

/-- Sleep before a retry on 429/5xx:
`backoff_factor * 2 ** (attempt - 1) or 1.0` (lines 449, 486). -/
def backoffSleepOr1 (bf : ℚ) (attempt : Nat) : ℚ :=
  let s := backoffSleep bf attempt
  if s = 0 then 1 else s

/-- `ors_detail.update({"code": c, "message": ors_detail.get("message", fallback)})`:
replaces the code and keeps the existing message (falling back only if absent). -/
def overrideCode (d : List (String × Json)) (code fallbackMsg : String) :
    List (String × Json) :=
  let msg := match lookupKey d "message" with
    | some m => m
    | none => .str fallbackMsg
  dictUpdate d [("code", .str code), ("message", msg)]

/-- The retry loop body of `_hacer_peticion_ors` (lines 312-498).
`attempt` is the 1-based attempt counter; `remaining` is the number of
attempts still allowed after this one (`attempt < attempts` in the source
is `remaining > 0` here).  Returns the call result together with the list
of sleeps performed, in order. -/
def ors_request_loop (bf : ℚ) (responses : Nat → HttpAttemptResult) :
    Nat → Nat → (Except HttpErr Json × List ℚ)
  | attempt, remaining =>
    match responses attempt with
    | .timeoutExc =>
        match remaining with
        | r + 1 =>
            let s := backoffSleep bf attempt
            let rec' := ors_request_loop bf responses (attempt + 1) r
            (rec'.1, (if 0 < s then [s] else []) ++ rec'.2)
        | 0 =>
            (.error ⟨504, .obj [("code", .str "ors_timeout"),
              ("message", .str "Timeout al conectar con OpenRouteService"),
              ("attempts", .num attempt)]⟩, [])
    | .requestExc =>
        match remaining with
        | r + 1 =>
            let s := backoffSleep bf attempt
            let rec' := ors_request_loop bf responses (attempt + 1) r
            (rec'.1, (if 0 < s then [s] else []) ++ rec'.2)
        | 0 =>
            (.error ⟨502, .obj [("code", .str "ors_connection_error"),
              ("message", .str "Error de conexión con OpenRouteService"),
              ("attempts", .num attempt)]⟩, [])
    | .response r =>
        if r.status_code = 200 then
          match r.jsonBody with
          | some j => (.ok j, [])
          | none =>
              (.error ⟨502, .obj [("code", .str "ors_invalid_json"),
                ("message", .str "Respuesta inválida de OpenRouteService")]⟩, [])
        else
          let d := extract_ors_error_detail r
          if r.status_code = 400 then
            (.error ⟨400, .obj (overrideCode d "ors_invalid_request"
              "Parámetros inválidos en petición a OpenRouteService")⟩, [])
          else if r.status_code = 401 then
            (.error ⟨500, .obj (overrideCode d "ors_invalid_key"
              "API Key de OpenRouteService inválida o expirada")⟩, [])
          else if r.status_code = 403 then
            (.error ⟨503, .obj (overrideCode d "ors_forbidden"
              "OpenRouteService rechazó la petición (forbidden)")⟩, [])
          else if r.status_code = 429 then
            let d429 := overrideCode d "ors_rate_limited"
              "Límite de solicitudes a OpenRouteService excedido"
            match remaining with
            | rem + 1 =>
                let s := backoffSleepOr1 bf attempt
                let rec' := ors_request_loop bf responses (attempt + 1) rem
                (rec'.1, s :: rec'.2)
            | 0 => (.error ⟨503, .obj d429⟩, [])
          else if r.status_code = 404 then
            (.error ⟨404, .obj (overrideCode d "ors_not_found"
              "OpenRouteService no encontró ruta para las coordenadas dadas")⟩, [])
          else if 500 ≤ r.status_code ∧ r.status_code < 600 then
            let d5xx := overrideCode d "ors_unavailable" "OpenRouteService no está disponible"
            match remaining with
            | rem + 1 =>
                let s := backoffSleepOr1 bf attempt
                let rec' := ors_request_loop bf responses (attempt + 1) rem
                (rec'.1, s :: rec'.2)
            | 0 => (.error ⟨502, .obj d5xx⟩, [])
          else
            (.error ⟨502, .obj d⟩, [])

/-- `ORSService._hacer_peticion_ors`, given per-attempt transport
outcomes.  The first attempt is number 1. -/
def hacer_peticion_ors (s : OrsRetrySettings) (responses : Nat → HttpAttemptResult) :
    Except HttpErr Json × List ℚ :=
  ors_request_loop (ors_backoff s) responses 1 (ors_attempts s - 1)

/-! ## Profile validation: `normalize_allowed_profiles`, `normalize_profile`
(ors_routing.py lines 217-237) -/

/-- `DEFAULT_PROFILE = "foot-walking"` (line 24). -/
def DEFAULT_PROFILE : String := "foot-walking"

/-- `normalize_allowed_profiles`: strip/lower-case each entry, drop blank
entries, and fall back to `[DEFAULT_PROFILE]` when nothing remains.
`ORS_ALLOWED_PROFILES` is the configured allow-list used when the caller
passes `None`. -/
def normalize_allowed_profiles (allowed_profiles : Option (List String))
    (ORS_ALLOWED_PROFILES : List String) : List String :=
  let profiles := allowed_profiles.getD ORS_ALLOWED_PROFILES
  let normalized := (profiles.filter (fun p => pyStrip p ≠ "")).map (fun p => pyLower (pyStrip p))
  if normalized = [] then [DEFAULT_PROFILE] else normalized

/-- `normalize_profile`: lower-cases the candidate (blank/absent defaults
to the first allowed profile) and rejects candidates outside the
allow-list with a 400 whose detail carries `code`, `allowed` and
`received` — and no `message` key. -/
def normalize_profile (profile : Option String) (allowed_profiles : Option (List String))
    (ORS_ALLOWED_PROFILES : List String) : Except HttpErr String :=
  let normalizedAllowed := normalize_allowed_profiles allowed_profiles ORS_ALLOWED_PROFILES
  let candidate := match profile with
    | some p => if pyStrip p ≠ "" then pyLower (pyStrip p) else normalizedAllowed.headD DEFAULT_PROFILE
    | none => normalizedAllowed.headD DEFAULT_PROFILE
  if candidate ∈ normalizedAllowed then .ok candidate
  else .error ⟨400, .obj [("code", .str "invalid_profile"),
    ("allowed", .arr (normalizedAllowed.map .str)),
    ("received", .str candidate)]⟩

/-! ## Cache key: `_format_coord_pair`, `_build_cache_key`
(ors_routing.py lines 40-41 and 240-247) -/

/-- `round` with round-half-to-even ties, as CPython `round` and its
fixed-point float formatting use. -/
def pyRoundHalfEven (q : ℚ) : Int :=
  let f := ⌊q⌋
  let frac := q - f
  if frac < 1/2 then f
  else if 1/2 < frac then f + 1
  else if f % 2 = 0 then f else f + 1

/-- Left-pad a fractional part to six digits. -/
def pad6 (n : Nat) : String :=
  let s := toString n
  String.mk (List.replicate (6 - s.length) '0') ++ s

/-- CPython `f"{x:.6f}"`: sign, integer part, and six fractional digits,
rounding the magnitude half-to-even at the sixth decimal. -/
def format6 (x : ℚ) : String :=
  let sign := if x < 0 then "-" else ""
  let n := (pyRoundHalfEven (|x| * 1000000)).toNat
  sign ++ toString (n / 1000000) ++ "." ++ pad6 (n % 1000000)

/-- `_format_coord_pair(lng, lat)` (lines 40-41). -/
def format_coord_pair (lng lat : ℚ) : String :=
  format6 lng ++ "," ++ format6 lat

/-- `_build_cache_key` (lines 240-247): digest of
`variant|profile|origin-pair|destination-pair` where origin/destination
are the first and last sanitized coordinates; everything in between is
ignored.  `digest` stands for `hashlib.sha256(...).hexdigest()`; the raw
key is what the source feeds it. -/
def build_cache_key (digest : String → String) (profile : String)
    (coordenadas : List (ℚ × ℚ)) (variant : String) : Except String String :=
  match coordenadas with
  | [] => .error "Coordenadas inválidas para cache"
  | c :: _ =>
      let origen := c
      let destino := coordenadas.getLastD c
      let raw_key := variant ++ "|" ++ profile ++ "|" ++
        format_coord_pair origen.1 origen.2 ++ "|" ++
        format_coord_pair destino.1 destino.2
      .ok ("route:" ++ digest raw_key)

/-! ## Step text: `_normalize_step_text` (ors_routing.py lines 140-153)

Python strings are modelled as `List Char` here, since the claim is
about character-level rewriting (strip, lower-case, whitespace collapse,
substring tests, slicing). -/

/-- `MAX_STEP_TEXT_LENGTH = 240` (line 25). -/
def MAX_STEP_TEXT_LENGTH : Nat := 240

/-- Worker for `collapseWs`; the flag records whether the previous
character was whitespace (i.e. we are inside a run already emitted as a
single space). -/
def collapseWsAux : Bool → List Char → List Char
  | _, [] => []
  | inRun, c :: rest =>
      if pyIsSpace c then
        if inRun then collapseWsAux true rest
        else ' ' :: collapseWsAux true rest
      else c :: collapseWsAux false rest

/-- `re.sub(r"\s+", " ", s)`: replace every maximal whitespace run by a
single space. -/
def collapseWs (l : List Char) : List Char := collapseWsAux false l

/-- Python substring test `needle in hay`. -/
def hasSubstring (hay needle : List Char) : Bool :=
  (List.range (hay.length + 1)).any (fun i => needle.isPrefixOf (hay.drop i))

/-- Number of positions of `hay` at which `needle` occurs (used to state
how many times a name appears in the normalized text). -/
def countSub (hay needle : List Char) : Nat :=
  ((List.range (hay.length + 1)).filter (fun i => needle.isPrefixOf (hay.drop i))).length

/-- `_normalize_step_text(instruction, name, step_index)`: `none` models
a non-string argument (the `isinstance(…, str)` guards).  Strips both
inputs, falls back to `"Paso «idx»"` for a blank instruction, appends
`" en «name»"` when the name is not already a case-insensitive substring,
collapses whitespace, strips, and truncates to 240 characters replacing
the tail with `"..."`. -/
def normalize_step_text (instruction name : Option (List Char)) (step_index : Nat) :
    List Char :=
  let raw_instruction := match instruction with
    | some s => stripChars s
    | none => []
  let step_name := match name with
    | some s => stripChars s
    | none => []
  let raw_instruction :=
    if raw_instruction = [] then "Paso ".toList ++ (toString step_index).toList
    else raw_instruction
  let raw_instruction :=
    if step_name ≠ [] ∧ ¬ hasSubstring (lowerChars raw_instruction) (lowerChars step_name) then
      if raw_instruction ≠ [] then raw_instruction ++ " en ".toList ++ step_name
      else "Continúa en ".toList ++ step_name
    else raw_instruction
  let normalized := stripChars (collapseWs raw_instruction)
  if MAX_STEP_TEXT_LENGTH < normalized.length then
    rstripChars (normalized.take (MAX_STEP_TEXT_LENGTH - 3)) ++ "...".toList
  else normalized

/-! ## Response normalization: `_parse_steps`, `_extract_step_location`,
`ORSService._procesar_respuesta_ors` (ors_routing.py lines 156-214 and
500-647) -/

/-- A `{"lat": …, "lng": …}` dictionary; the values stay `Json` because
the GeoJSON branch stores whatever appears in the coordinate array. -/
structure CoordDict where
  lat : Json
  lng : Json

/-- Python truthiness of a JSON value. -/
def jsonTruthy : Json → Bool
  | .null => false
  | .b v => v
  | .num q => decide (q ≠ 0)
  | .str s => decide (s ≠ "")
  | .arr xs => ¬ xs.isEmpty
  | .obj fs => ¬ fs.isEmpty

/-- Python `float(x)` on a JSON value: numbers and booleans convert,
everything else raises (modelled as `none`; numeric strings, which
`float` would also accept, do not occur in the payloads modelled). -/
def pyFloat : Json → Option ℚ
  | .num q => some q
  | .b v => some (if v then 1 else 0)
  | _ => none

/-- Python `int(x)` on a JSON value: truncates numbers toward zero
(numeric strings are not modelled, as for `pyFloat`). -/
def pyInt : Json → Option Int
  | .num q => some (if 0 ≤ q then ⌊q⌋ else -⌊-q⌋)
  | .b v => some (if v then 1 else 0)
  | _ => none

/-- `x or 0` applied to `step.get(key, 0)`. -/
def orZeroJson (v : Option Json) : Json :=
  let v0 := v.getD (.num 0)
  if jsonTruthy v0 then v0 else .num 0

/-- `str` field extraction honouring the `isinstance(…, str)` guards:
absent and non-string both become `none`. -/
def jsonStrOpt : Option Json → Option (List Char)
  | some (.str s) => some s.toList
  | _ => none

/-- `_extract_step_location` (lines 156-176): first waypoint index into
the decoded geometry when it is an integer in range and the coordinate
there is numeric; else the embedded `coordinate` field; else `none`.
(JSON integers are the `num` values with denominator 1; the model does
not distinguish them from equal floats, which no claim requires.) -/
def extract_step_location (step : List (String × Json)) (ruta_coordenadas : List CoordDict) :
    Option CoordDict :=
  let fromWayPoints : Option CoordDict :=
    match lookupKey step "way_points" with
    | some (.arr (candidate :: _)) =>
        match candidate with
        | .num q =>
            if q.den = 1 ∧ 0 ≤ q.num ∧ q.num < ruta_coordenadas.length then
              match ruta_coordenadas.get? q.num.toNat with
              | some coord =>
                  match pyFloat coord.lat, pyFloat coord.lng with
                  | some lat, some lng => some ⟨.num lat, .num lng⟩
                  | _, _ => none
              | none => none
            else none
        | _ => none
    | _ => none
  match fromWayPoints with
  | some c => some c
  | none =>
      match lookupKey step "coordinate" with
      | some (.arr (c0 :: c1 :: _)) =>
          match pyFloat c0, pyFloat c1 with
          | some lng, some lat => some ⟨.num lat, .num lng⟩
          | _, _ => none
      | _ => none

/-- `MAX_ROUTE_STEPS = 200` (line 26). -/
def MAX_ROUTE_STEPS : Nat := 200

/-- A parsed step dictionary (ors_routing.py lines 200-208). -/
structure RouteStep where
  orden : Nat
  texto : List Char
  distance_m : Int
  duration_s : Int
  location : Option CoordDict

/-- Loop body of `_parse_steps` (lines 184-212): `idx` is the
`enumerate` counter (it advances over skipped non-dict entries too),
`parsedCount` is `len(parsed_steps)`; the loop breaks right after
appending the step that reaches `MAX_ROUTE_STEPS`. -/
def parse_steps_aux (ruta : List CoordDict) : List Json → Nat → Nat → List RouteStep
  | [], _, _ => []
  | step :: rest, idx, parsedCount =>
      match step with
      | .obj fields =>
          let texto := normalize_step_text (jsonStrOpt (lookupKey fields "instruction"))
            (jsonStrOpt (lookupKey fields "name")) (idx + 1)
          let distance := match pyFloat (orZeroJson (lookupKey fields "distance")) with
            | some q => pyRoundHalfEven q
            | none => 0
          let duration := match pyFloat (orZeroJson (lookupKey fields "duration")) with
            | some q => pyRoundHalfEven q
            | none => 0
          let st : RouteStep :=
            ⟨idx, texto, max 0 distance, max 0 duration, extract_step_location fields ruta⟩
          if MAX_ROUTE_STEPS ≤ parsedCount + 1 then [st]
          else st :: parse_steps_aux ruta rest (idx + 1) (parsedCount + 1)
      | _ => parse_steps_aux ruta rest (idx + 1) parsedCount

/-- `_parse_steps` (lines 179-214): non-list input yields no steps. -/
def parse_steps (raw_steps : Json) (ruta : List CoordDict) : List RouteStep :=
  match raw_steps with
  | .arr items => parse_steps_aux ruta items 0 0
  | _ => []

/-- An error escaping `_procesar_respuesta_ors`: either a raised
`HTTPException`, or an exception type that its
`except (KeyError, IndexError, TypeError, ValueError)` clause does not
catch. -/
inductive ProcErr where
  | http (e : HttpErr)
  | uncaught (msg : String)

/-- The dictionary `_procesar_respuesta_ors` returns (lines 632-639). -/
structure RouteResultDict where
  ruta : List CoordDict
  distancia_m : Int
  duracion_s : Int
  instrucciones : List RouteStep
  steps_count : Nat
  current_step_index : Nat

/-- The blanket `except` handler (lines 641-647): a 500 whose detail is
the plain string `"Error procesando respuesta de OpenRouteService: …"`. -/
def genericProcErr (e : String) : ProcErr :=
  .http ⟨500, .str ("Error procesando respuesta de OpenRouteService: " ++ e)⟩

/-- GeoJSON coordinate extraction (lines 593-601): entries of length ≥ 2
contribute `{"lat": c[1], "lng": c[0]}` verbatim, shorter list entries
are skipped, and a non-list entry makes `len(coord)` raise `TypeError`
into the blanket handler. -/
def geo_coords_to_ruta : List Json → Except String (List CoordDict)
  | [] => .ok []
  | .arr (c0 :: c1 :: _) :: rest => (geo_coords_to_ruta rest).map (fun r => ⟨c1, c0⟩ :: r)
  | .arr _ :: rest => geo_coords_to_ruta rest
  | _ :: _ => .error "TypeError"

/-- `ORSService._procesar_respuesta_ors` (lines 532-647).  `polyDecode`
stands for the `polyline.decode` library call inside
`_decodificar_polyline`, yielding `(lat, lng)` pairs, with `none` when
the library raises (turned into the 500
`"Error decodificando geometría de ruta"`).  Python values whose only
honest reading is an exception flowing into the blanket handler are
mapped through `genericProcErr`. -/
def procesar_respuesta_ors (polyDecode : String → Option (List (ℚ × ℚ)))
    (ors_response : Json) : Except ProcErr RouteResultDict :=
  match ors_response with
  | .obj respFields =>
      match lookupKey respFields "routes" with
      | none => .error (.http ⟨500, .str "Estructura de respuesta inválida de OpenRouteService"⟩)
      | some routesVal =>
          match routesVal with
          | .arr [] => .error (.http ⟨404, .str "No se pudo calcular ruta entre las ubicaciones"⟩)
          | .arr (route :: _) =>
              match route with
              | .obj routeFields =>
                  let rutaE : Except ProcErr (List CoordDict) :=
                    match lookupKey routeFields "geometry" with
                    | none => .error (.http ⟨500, .str "Geometría de ruta no disponible"⟩)
                    | some (.str encoded) =>
                        match polyDecode encoded with
                        | some pts => .ok (pts.map (fun p => ⟨.num p.1, .num p.2⟩))
                        | none => .error (.http ⟨500, .str "Error decodificando geometría de ruta"⟩)
                    | some (.obj gFields) =>
                        match lookupKey gFields "coordinates" with
                        | some (.arr coords) =>
                            match geo_coords_to_ruta coords with
                            | .ok r => .ok r
                            | .error e => .error (genericProcErr e)
                        | some _ => .error (genericProcErr "TypeError")
                        | none => .error (.http ⟨500, .str "Formato de geometría no soportado"⟩)
                    | some _ => .error (.http ⟨500, .str "Formato de geometría no soportado"⟩)
                  match rutaE with
                  | .error e => .error e
                  | .ok ruta =>
                      match lookupKey routeFields "summary" with
                      | none => .error (.http ⟨500, .str "Resumen de ruta no disponible"⟩)
                      | some (.obj sFields) =>
                          match pyInt ((lookupKey sFields "distance").getD (.num 0)),
                                pyInt ((lookupKey sFields "duration").getD (.num 0)) with
                          | some distancia, some duracion =>
                              let steps :=
                                match lookupKey routeFields "segments" with
                                | some (.arr (seg0 :: _)) =>
                                    match seg0 with
                                    | .obj segFields =>
                                        parse_steps ((lookupKey segFields "steps").getD .null) ruta
                                    | _ => parse_steps .null ruta
                                | _ => []
                              .ok ⟨ruta, distancia, duracion, steps, steps.length, 0⟩
                          | _, _ => .error (genericProcErr "ValueError")
                      | some _ =>
                          -- `summary.get` on a non-dict raises `AttributeError`,
                          -- which the blanket handler does not catch
                          .error (.uncaught "AttributeError")
              | _ =>
                  -- `"geometry" not in route` on a non-dict raises `TypeError`
                  .error (genericProcErr "TypeError")
          | _ =>
              if jsonTruthy routesVal then
                -- `len(routes)` on a non-sized value raises `TypeError`
                .error (genericProcErr "TypeError")
              else .error (.http ⟨404, .str "No se pudo calcular ruta entre las ubicaciones"⟩)
  | _ => .error (.http ⟨500, .str "Formato de respuesta inesperado de OpenRouteService"⟩)

/-! ## Orchestrator: `obtener_ruta_ors_por_coordenadas`
(ors_routing.py lines 726-824)

The orchestrator is modelled as a pure function of the request data and
an environment of oracle outcomes for its collaborators (cache, lock,
upstream HTTP, response processing).  Alongside the result it returns
the ordered trace of interactions it performed, so that claims about
"no cache write", "lock release attempted", etc. are statements about
the trace. -/

/-- `_validate_coordinates` (ors_routing.py lines 52-99) on typed
`[lon, lat]` pairs: needs at least two pairs, each within lon/lat
ranges.  (The list-shape and numeric-coercion failures concern untyped
payloads and raise the same `invalid_payload` error.) -/
def validate_coordinates (coordenadas : List (ℚ × ℚ)) : Except HttpErr (List (ℚ × ℚ)) :=
  if coordenadas.length < 2 then
    .error ⟨400, .obj [("code", .str "invalid_payload"),
      ("message", .str "Se requieren al menos dos puntos [lon, lat]"),
      ("field", .str "coordinates")]⟩
  else if coordenadas.all
      (fun c => -180 ≤ c.1 ∧ c.1 ≤ 180 ∧ -90 ≤ c.2 ∧ c.2 ≤ 90) then
    .ok coordenadas
  else
    .error ⟨400, .obj [("code", .str "invalid_payload"),
      ("message", .str "Coordenada fuera de rango lon/lat"),
      ("field", .str "coordinates")]⟩

/-- Serialize a coordinate dictionary back to JSON. -/
def CoordDict.toJson (c : CoordDict) : Json := .obj [("lat", c.lat), ("lng", c.lng)]

/-- Serialize a parsed step back to JSON (the dict built at lines 200-208). -/
def RouteStep.toJson (st : RouteStep) : Json :=
  .obj [("orden", .num st.orden), ("texto", .str (String.mk st.texto)),
    ("distance_m", .num st.distance_m), ("duration_s", .num st.duration_s),
    ("location", match st.location with
      | some c => c.toJson
      | none => .null)]

/-- Serialize the processing result back to JSON (the dict returned at
lines 632-639). -/
def RouteResultDict.toJson (r : RouteResultDict) : Json :=
  .obj [("ruta", .arr (r.ruta.map CoordDict.toJson)),
    ("distancia_m", .num r.distancia_m),
    ("duracion_s", .num r.duracion_s),
    ("instrucciones", .arr (r.instrucciones.map RouteStep.toJson)),
    ("steps_count", .num r.steps_count),
    ("current_step_index", .num r.current_step_index)]

/-- One interaction the orchestrator performs against its
collaborators, in program order. -/
inductive OrchEvent where
  | cacheGet (key : String)
  | lockAcquire (key : String)
  | waitForValue (key : String)
  | upstreamRequest
  | processResponse
  | cacheSet (key : String) (payload : Json) (ttl : Int)
  | lockRelease (key : String)

/-- Is this event a cache write? -/
def OrchEvent.isCacheSet : OrchEvent → Bool
  | .cacheSet _ _ _ => true
  | _ => false

/-- Is this event a lock release? -/
def OrchEvent.isLockRelease : OrchEvent → Bool
  | .lockRelease _ => true
  | _ => false

/-- Does this event touch the cache or lock subsystem at all? -/
def OrchEvent.isCacheInteraction : OrchEvent → Bool
  | .cacheGet _ => true
  | .lockAcquire _ => true
  | .waitForValue _ => true
  | .cacheSet _ _ _ => true
  | .lockRelease _ => true
  | _ => false

/-- Settings the orchestrator reads. -/
structure OrchSettings where
  cacheSettings : CacheSettings
  CACHE_LOCK_TIMEOUT_SECONDS : Int
  ORS_ALLOWED_PROFILES : List String

/-- Oracle outcomes for the orchestrator's collaborators.  `Except Unit`
models a call that may raise (`.error ()`), which the orchestrator
catches and logs. -/
structure OrchEnv where
  cacheAvailable : Bool
  getOutcome : Except Unit (Option Json)
  lockOutcome : Except Unit (Option String)
  waitOutcome : Except Unit (Option Json)
  configError : Option String
  requestOutcome : Except HttpErr Json
  processOutcome : Json → Except ProcErr RouteResultDict
  setRaises : Bool
  releaseRaises : Bool

/-- `obtener_ruta_ors_por_coordenadas` (lines 726-824).  Returns the
propagated result and the interaction trace.  Note that the upstream
call and the response processing (lines 788-793) sit outside any
`try`/`finally`, so an error raised there propagates directly: the code
that stores to the cache and releases the lock (lines 804-821) is never
reached on that path. -/
def obtener_ruta_ors_por_coordenadas (env : OrchEnv) (s : OrchSettings)
    (digest : String → String) (coordenadas : List (ℚ × ℚ))
    (profile : Option String) (cache_ttl : Option Int)
    (allowed_profiles : Option (List String)) :
    Except ProcErr Json × List OrchEvent :=
  match validate_coordinates coordenadas with
  | .error e => (.error (.http e), [])
  | .ok sanitized_coords =>
      let ttl_seconds := resolve_cache_ttl s.cacheSettings cache_ttl
      match normalize_profile profile allowed_profiles s.ORS_ALLOWED_PROFILES with
      | .error e => (.error (.http e), [])
      | .ok normalized_profile =>
          let cachingOn := env.cacheAvailable ∧ 0 < ttl_seconds
          let keyVal : Option String :=
            match build_cache_key digest normalized_profile sanitized_coords "coords" with
            | .ok k => some k
            | .error _ => none
          -- lines 755-764: first `get`, catching cache errors
          let phase1 : Option (Json × List OrchEvent) ⊕ (Option String × List OrchEvent) :=
            if cachingOn then
              match keyVal with
              | some k =>
                  match env.getOutcome with
                  | .ok (some cached) => .inl (some (cached, [.cacheGet k]))
                  | .ok none => .inr (some k, [.cacheGet k])
                  | .error () => .inr (none, [.cacheGet k])
              | none => .inr (none, [])
            else .inr (none, [])
          match phase1 with
          | .inl (some (cached, evs)) =>
              -- line 761: `return deepcopy(cached_payload)` — on immutable
              -- values a deep copy is equal; aliasing is analysed in the
              -- heap model below
              (.ok cached, evs)
          | .inl none => (.ok .null, [])  -- unreachable by construction
          | .inr (keyAfterGet, evs1) =>
              -- lines 766-767: rebuild the key if the read attempt reset it
              let cache_key : Option String :=
                if cachingOn ∧ keyAfterGet.isNone then keyVal else keyAfterGet
              -- lines 769-781: lock acquisition / waiting
              let lockPhase : (Option String × List OrchEvent) ⊕ (Json × List OrchEvent) :=
                match cache_key with
                | some k =>
                    if cachingOn then
                      match env.lockOutcome with
                      | .ok (some t) => .inl (some t, [.lockAcquire k])
                      | .ok none =>
                          match env.waitOutcome with
                          | .ok (some cached) =>
                              .inr (cached, [.lockAcquire k, .waitForValue k])
                          | .ok none => .inl (none, [.lockAcquire k, .waitForValue k])
                          | .error () => .inl (none, [.lockAcquire k, .waitForValue k])
                      | .error () => .inl (none, [.lockAcquire k])
                    else .inl (none, [])
                | none => .inl (none, [])
              match lockPhase with
              | .inr (cached, evs2) =>
                  -- line 777: `return deepcopy(cached_payload)`
                  (.ok cached, evs1 ++ evs2)
              | .inl (lock_token, evs2) =>
                  match env.configError with
                  | some msg => (.error (.http ⟨500, .str msg⟩), evs1 ++ evs2)
                  | none =>
                      match env.requestOutcome with
                      | .error e =>
                          -- lines 788-792: the HTTPException propagates;
                          -- no cache write, and no lock release either
                          (.error (.http e), evs1 ++ evs2 ++ [.upstreamRequest])
                      | .ok body =>
                          match env.processOutcome body with
                          | .error e =>
                              (.error e,
                               evs1 ++ evs2 ++ [.upstreamRequest, .processResponse])
                          | .ok rdict =>
                              let origen : Json := .obj
                                [("lat", .num (sanitized_coords.headD (0, 0)).2),
                                 ("lng", .num (sanitized_coords.headD (0, 0)).1)]
                              let destino : Json := .obj
                                [("lat", .num (sanitized_coords.getLastD (0, 0)).2),
                                 ("lng", .num (sanitized_coords.getLastD (0, 0)).1)]
                              let resultado :=
                                match rdict.toJson with
                                | .obj fields =>
                                    Json.obj (dictSet (dictSet (dictSet fields
                                      "origen" origen) "destino" destino)
                                      "perfil" (.str normalized_profile))
                                | j => j
                              let tailEvents : List OrchEvent :=
                                match cache_key with
                                | some k =>
                                    if cachingOn then
                                      -- lines 804-815: set, then release in `finally`
                                      [.cacheSet k resultado ttl_seconds] ++
                                        (match lock_token with
                                         | some _ => [.lockRelease k]
                                         | none => [])
                                    else
                                      -- lines 816-821: the `elif` branch
                                      match lock_token with
                                      | some _ =>
                                          if env.cacheAvailable then [.lockRelease k] else []
                                      | none => []
                                | none => []
                              (.ok resultado,
                               evs1 ++ evs2 ++ [.upstreamRequest, .processResponse] ++
                                 tailEvents)

/-! ## Aliasing model for `deepcopy` (ors_routing.py lines 7 and 761/777)

The orchestrator returns `deepcopy(cached_payload)` on a cache hit.  To
state what that buys the caller we model Python object graphs explicitly:
a heap maps addresses to nodes; lists and dicts are mutable containers of
references, numbers/strings are immutable atoms (dict keys are immaterial
to aliasing, so containers just carry an ordered list of children plus a
tag).  `deepcopy` materializes the value of the source object into fresh
addresses, so mutating anything reachable from the copy cannot change the
value of the original. -/

mutual
/-- The value denoted by a Python object: an atom or a tagged container. -/
inductive PyVal where
  | atom (s : String)
  | container (tag : String) (items : PyValList)
/-- A list of `PyVal`s (kept mutual to keep all recursion structural). -/
inductive PyValList where
  | nil
  | cons (head : PyVal) (tail : PyValList)
end

/-- A heap node: an immutable atom, or a container holding addresses of
its children. -/
inductive HNode where
  | hatom (s : String)
  | hcontainer (tag : String) (children : List Nat)

/-- Update a heap at one address (a container-cell mutation, or an
allocation). -/
def heapWrite (h : Nat → Option HNode) (a : Nat) (nd : HNode) :
    Nat → Option HNode :=
  fun x => if x = a then some nd else h x

mutual
/-- Read the value denoted by address `a`, with fuel bounding the
nesting depth followed. -/
def readVal (h : Nat → Option HNode) : Nat → Nat → Option PyVal
  | _, 0 => none
  | a, fuel + 1 =>
      match h a with
      | some (.hatom s) => some (.atom s)
      | some (.hcontainer tag children) =>
          match readChildren h children (fuel + 1) with
          | some items => some (.container tag items)
          | none => none
      | none => none
/-- Read a list of children; each child is read with one level of fuel
less than its parent had. -/
def readChildren (h : Nat → Option HNode) : List Nat → Nat → Option PyValList
  | _, 0 => none
  | [], _ + 1 => some .nil
  | c :: cs, fuel + 1 =>
      match readVal h c fuel with
      | some v =>
          match readChildren h cs (fuel + 1) with
          | some vs => some (.cons v vs)
          | none => none
      | none => none
end

mutual
/-- Nesting depth of a value (the fuel `readVal` needs). -/
def PyVal.depth : PyVal → Nat
  | .atom _ => 1
  | .container _ items => PyValList.depthList items + 1
/-- Maximum depth over a list of values. -/
def PyValList.depthList : PyValList → Nat
  | .nil => 0
  | .cons hd tl => max hd.depth (PyValList.depthList tl)
end

mutual
/-- Allocate a fresh copy of a value: returns the new heap, the new
allocation bound, and the address of the copy root.  This is the
materialization `copy.deepcopy` performs (internal sharing inside the
source is not preserved, which is observable only through identity of
sub-objects of the copy, irrelevant here). -/
def deepcopyAlloc : PyVal → (Nat → Option HNode) → Nat →
    ((Nat → Option HNode) × Nat × Nat)
  | .atom s, h, n => (heapWrite h n (.hatom s), n + 1, n)
  | .container tag items, h, n =>
      let r := deepcopyAllocList items h n
      (heapWrite r.1 r.2.1 (.hcontainer tag r.2.2), r.2.1 + 1, r.2.1)
/-- Allocate fresh copies of a list of values, returning their addresses
in order. -/
def deepcopyAllocList : PyValList → (Nat → Option HNode) → Nat →
    ((Nat → Option HNode) × Nat × List Nat)
  | .nil, h, n => (h, n, [])
  | .cons hd tl, h, n =>
      let r1 := deepcopyAlloc hd h n
      let r2 := deepcopyAllocList tl r1.1 r1.2.1
      (r2.1, r2.2.1, r1.2.2 :: r2.2.2)
end

/-- A heap is closed below `n`: nothing is allocated at or above `n`,
and every container child points below `n`. -/
def HeapClosed (h : Nat → Option HNode) (n : Nat) : Prop :=
  (∀ a, n ≤ a → h a = none) ∧
  (∀ a tag cs, h a = some (.hcontainer tag cs) → ∀ c ∈ cs, c < n)

/-- Addresses reachable from `root` by following container children. -/
inductive Reaches (h : Nat → Option HNode) (root : Nat) : Nat → Prop where
  | refl : Reaches h root root
  | step {b c : Nat} {tag : String} {cs : List Nat} :
      Reaches h root b → h b = some (.hcontainer tag cs) → c ∈ cs →
      Reaches h root c

/-- The cache-hit path of the orchestrator at the heap level
(ors_routing.py lines 758-761): `cached_payload` is the object rooted at
`storedRoot`; the orchestrator returns `deepcopy(cached_payload)`, i.e.
a fresh materialization of its value. -/
def cache_hit_return (h : Nat → Option HNode) (n storedRoot fuel : Nat) :
    Option ((Nat → Option HNode) × Nat × Nat) :=
  match readVal h storedRoot fuel with
  | some v => some (deepcopyAlloc v h n)
  | none => none

/-! ## Graph engine: `dijkstra` (app/services/rutas.py lines 16-44)

The graph built by `construir_grafo` is a dict from location id to a
list of `(neighbor, weight)` pairs.  Connection weights are positive
numbers (spec §3); we model them as naturals, which also makes the
loop measure expressible.  `float("inf")` becomes `none` in the
distance map.  `heapq` pops the lexicographically smallest
`(distance, node)` tuple; which of several equal tuples is popped is
unobservable, since equal tuples are identical values. -/

/-- A directed weighted graph: `{origin: [(destination, weight), …]}`. -/
abbrev Grafo := List (Nat × List (Nat × Nat))

/-- Lexicographic order on `(distance, node)` tuples, as Python compares
the tuples stored in the heap. -/
def pairLt (a b : Nat × Nat) : Bool := a.1 < b.1 ∨ (a.1 = b.1 ∧ a.2 < b.2)

/-- `heapq.heappop`: remove and return the smallest tuple. -/
def popMin : List (Nat × Nat) → Option ((Nat × Nat) × List (Nat × Nat))
  | [] => none
  | x :: xs =>
      match popMin xs with
      | none => some (x, [])
      | some (m, rest) => if pairLt m x then some (m, x :: rest) else some (x, xs)

/-- `distancia < distancias[vecino]` where the right side may be
`float("inf")`. -/
def ltInf (x : Nat) : Option Nat → Bool
  | none => true
  | some d => x < d

/-- The inner `for vecino, peso in grafo[actual_nodo]` loop
(rutas.py lines 29-34): relax each outgoing edge, updating distance and
predecessor and pushing the improved candidate.  Looking up a neighbor
absent from `distancias` raises `KeyError`. -/
def relaxNeighbors (actualDist actualNodo : Nat) :
    List (Nat × Nat) → List (Nat × Option Nat) → List (Nat × Nat) → List (Nat × Nat) →
    Except String (List (Nat × Option Nat) × List (Nat × Nat) × List (Nat × Nat))
  | [], dist, anterior, cola => .ok (dist, anterior, cola)
  | (vecino, peso) :: rest, dist, anterior, cola =>
      match lookupKey dist vecino with
      | none => .error "KeyError"
      | some dv =>
          let distancia := actualDist + peso
          if ltInf distancia dv then
            relaxNeighbors actualDist actualNodo rest
              (setKey dist vecino (some distancia))
              (assignKey anterior vecino actualNodo)
              (cola ++ [(distancia, vecino)])
          else
            relaxNeighbors actualDist actualNodo rest dist anterior cola

/-- Number of `float("inf")` entries in the distance map (first
component of the loop measure). -/
def countInf (dist : List (Nat × Option Nat)) : Nat :=
  (dist.filter (fun p => p.2.isNone)).length

/-- Sum of the finite distances (second component of the loop measure). -/
def sumFinite (dist : List (Nat × Option Nat)) : Nat :=
  (dist.map (fun p => p.2.getD 0)).sum

/-- `popMin` yields `none` only on the empty queue. -/
theorem popMin_none {l : List (Nat × Nat)} (h : popMin l = none) : l = [] := by
  cases l with
  | nil => rfl
  | cons x xs =>
      rw [popMin] at h
      cases hxs : popMin xs with
      | none => simp [hxs] at h
      | some mr =>
          obtain ⟨m, r⟩ := mr
          simp only [hxs] at h
          split at h <;> simp at h

/-- Termination helper: popping the heap removes exactly one element. -/
theorem popMin_length {cola : List (Nat × Nat)} {x : Nat × Nat}
    {rest : List (Nat × Nat)} (h : popMin cola = some (x, rest)) :
    rest.length + 1 = cola.length := by
  induction cola generalizing x rest with
  | nil => simp [popMin] at h
  | cons y ys ih =>
      rw [popMin] at h
      cases hys : popMin ys with
      | none =>
          rw [hys] at h
          simp only [Option.some.injEq, Prod.mk.injEq] at h
          obtain ⟨-, rfl⟩ := h
          simp [popMin_none hys]
      | some mr =>
          obtain ⟨m, r⟩ := mr
          rw [hys] at h
          by_cases hlt : pairLt m y = true
          · simp only [hlt, if_true, Option.some.injEq, Prod.mk.injEq] at h
            obtain ⟨-, rfl⟩ := h
            have := ih hys
            simp only [List.length_cons]
            omega
          · simp only [hlt, if_false, Option.some.injEq, Prod.mk.injEq,
              Bool.false_eq_true] at h
            obtain ⟨-, rfl⟩ := h
            simp

/-- Termination helper: relaxing a node whose distance was infinite
lowers `countInf`. -/
theorem countInf_set_of_inf {d : List (Nat × Option Nat)} {v x : Nat}
    (h : lookupKey d v = some none) :
    countInf (setKey d v (some x)) < countInf d := by
  induction d with
  | nil => simp [lookupKey] at h
  | cons p rest ih =>
      obtain ⟨k, val⟩ := p
      rw [lookupKey] at h
      by_cases hk : k = v
      · simp only [hk, if_true, Option.some.injEq] at h
        subst h
        simp [setKey, hk, countInf, List.filter]
      · simp only [hk, if_false] at h
        have := ih h
        cases val with
        | none => simpa [setKey, hk, countInf, List.filter] using this
        | some w => simpa [setKey, hk, countInf, List.filter] using this

/-- Termination helper: relaxing a node with a strictly smaller finite
distance keeps `countInf` and lowers `sumFinite`. -/
theorem sumFinite_set_of_lt {d : List (Nat × Option Nat)} {v x dv : Nat}
    (h : lookupKey d v = some (some dv)) (hx : x < dv) :
    countInf (setKey d v (some x)) = countInf d ∧
      sumFinite (setKey d v (some x)) < sumFinite d := by
  induction d with
  | nil => simp [lookupKey] at h
  | cons p rest ih =>
      obtain ⟨k, val⟩ := p
      rw [lookupKey] at h
      by_cases hk : k = v
      · simp only [hk, if_true, Option.some.injEq] at h
        subst h
        constructor
        · simp [setKey, hk, countInf, List.filter]
        · simp only [setKey, hk, if_true, sumFinite, List.map_cons, List.sum_cons,
            Option.getD_some]
          omega
      · simp only [hk, if_false] at h
        obtain ⟨ihc, ihs⟩ := ih h
        constructor
        · cases val with
          | none => simpa [setKey, hk, countInf, List.filter] using ihc
          | some w => simpa [setKey, hk, countInf, List.filter] using ihc
        · simp only [setKey, hk, if_false, sumFinite, List.map_cons, List.sum_cons]
          have := ihs
          simp only [sumFinite] at this
          omega

/-- Termination helper: one pass of `relaxNeighbors` either leaves the
distance map and the queue unchanged, or strictly decreases the
`(countInf, sumFinite)` measure lexicographically. -/
theorem relaxNeighbors_measure {ad an : Nat} :
    ∀ (ns : List (Nat × Nat)) (d : List (Nat × Option Nat))
      (a c : List (Nat × Nat)) (d2 : List (Nat × Option Nat))
      (a2 c2 : List (Nat × Nat)),
      relaxNeighbors ad an ns d a c = .ok (d2, a2, c2) →
      (d2 = d ∧ c2 = c) ∨
        countInf d2 < countInf d ∨
        (countInf d2 = countInf d ∧ sumFinite d2 < sumFinite d) := by
  intro ns
  induction ns with
  | nil =>
      intro d a c d2 a2 c2 h
      rw [relaxNeighbors] at h
      simp only [Except.ok.injEq, Prod.mk.injEq] at h
      exact .inl ⟨h.1.symm, h.2.2.symm⟩
  | cons p rest ih =>
      intro d a c d2 a2 c2 h
      obtain ⟨vecino, peso⟩ := p
      rw [relaxNeighbors] at h
      cases hlk : lookupKey d vecino with
      | none => rw [hlk] at h; simp at h
      | some dv =>
          rw [hlk] at h
          by_cases hlt : ltInf (ad + peso) dv = true
          · simp only [hlt, if_true] at h
            have hstep : countInf (setKey d vecino (some (ad + peso))) < countInf d ∨
                (countInf (setKey d vecino (some (ad + peso))) = countInf d ∧
                  sumFinite (setKey d vecino (some (ad + peso))) < sumFinite d) := by
              cases dv with
              | none => exact .inl (countInf_set_of_inf hlk)
              | some dvv =>
                  have hxd : ad + peso < dvv := by
                    simpa [ltInf] using hlt
                  exact .inr (sumFinite_set_of_lt hlk hxd)
            rcases ih _ _ _ _ _ _ h with ⟨hd, -⟩ | hrec
            · rw [hd]
              exact .inr hstep
            · rcases hstep with hs1 | ⟨hs2, hs3⟩ <;>
                rcases hrec with hr1 | ⟨hr2, hr3⟩ <;>
                  [skip; skip; skip; skip] <;> first
                | exact .inr (.inl (by omega))
                | exact .inr (.inr (by constructor <;> omega))
          · simp only [hlt, if_false, Bool.false_eq_true] at h
            exact ih _ _ _ _ _ _ h

/-- The `while cola` loop of `dijkstra` (rutas.py lines 23-34): pop the
minimum, stop early at the destination, otherwise relax the outgoing
edges.  Terminates because every relaxation either turns an infinite
distance finite or strictly decreases a finite one, and an iteration
without relaxations shortens the queue. -/
def dijkstraLoop (grafo : Grafo) (destino : Nat) :
    (dist : List (Nat × Option Nat)) → (anterior : List (Nat × Nat)) →
    (cola : List (Nat × Nat)) →
    Except String (List (Nat × Option Nat) × List (Nat × Nat))
  | dist, anterior, cola =>
      match hpop : popMin cola with
      | none => .ok (dist, anterior)
      | some ((actualDist, actualNodo), colaRest) =>
          if actualNodo = destino then .ok (dist, anterior)
          else
            match lookupKey grafo actualNodo with
            | none => .error "KeyError"
            | some vecinos =>
                match hrel : relaxNeighbors actualDist actualNodo vecinos dist anterior colaRest with
                | .error e => .error e
                | .ok (dist2, anterior2, cola2) =>
                    dijkstraLoop grafo destino dist2 anterior2 cola2
termination_by dist _ cola => (countInf dist, sumFinite dist, cola.length)
decreasing_by
  rcases relaxNeighbors_measure vecinos dist anterior colaRest dist2 anterior2 cola2 hrel with
    ⟨hd, hc⟩ | hct | ⟨hceq, hs⟩
  · rw [hd, hc]
    have hlen : colaRest.length < cola.length := by
      have := popMin_length hpop
      omega
    exact Prod.Lex.right _ (Prod.Lex.right _ hlen)
  · exact Prod.Lex.left _ _ hct
  · rw [hceq]
    exact Prod.Lex.right _ (Prod.Lex.left _ _ hs)

/-- The reconstruction loop `while actual in anterior` (rutas.py lines
38-40), walking predecessor links backward and building the path
front-first.  The fuel bounds the walk; in actual runs the predecessor
map is acyclic (each link strictly decreases the tentative distance), so
`anterior.length` steps always suffice. -/
def walkBack (anterior : List (Nat × Nat)) :
    Nat → List Nat → Nat → Except Unit (Nat × List Nat)
  | actual, ruta, fuel =>
      match lookupKey anterior actual with
      | none => .ok (actual, ruta)
      | some prev =>
          match fuel with
          | 0 => .error ()
          | f + 1 => walkBack anterior prev (actual :: ruta) f

/-- `dijkstra(grafo, inicio, destino)` (rutas.py lines 16-44): distances
start at infinity except the source; the main loop runs; the path is
rebuilt from predecessor links, and an empty list is returned when the
walk does not end at the source. -/
def dijkstra (grafo : Grafo) (inicio destino : Nat) : Except String (List Nat) :=
  let dist0 := assignKey (grafo.map (fun p => (p.1, (none : Option Nat)))) inicio (some 0)
  match dijkstraLoop grafo destino dist0 [] [(0, inicio)] with
  | .error e => .error e
  | .ok (_, anterior) =>
      match walkBack anterior destino [] anterior.length with
      | .error () => .error "RecursionError"
      | .ok (actual, ruta) =>
          if actual = inicio then .ok (inicio :: ruta) else .ok []

/-- Edge relation of the graph: there is an edge from `b` to `c`. -/
def HasEdge (grafo : Grafo) (b c : Nat) : Prop :=
  ∃ ns w, lookupKey grafo b = some ns ∧ (c, w) ∈ ns

/-- Existence of a directed path in the graph (reflexive-transitive
closure of the edge relation). -/
inductive ReachableG (grafo : Grafo) (a : Nat) : Nat → Prop where
  | refl : ReachableG grafo a a
  | step {b c : Nat} : ReachableG grafo a b → HasEdge grafo b c → ReachableG grafo a c

/-- Well-formedness of a graph dict: node ids are unique and every
neighbor is itself a node of the graph (as `construir_grafo` guarantees
for consistent connection records). -/
def GrafoWF (grafo : Grafo) : Prop :=
  (grafo.map Prod.fst).Nodup ∧
  ∀ n ns, lookupKey grafo n = some ns → ∀ p ∈ ns, ∃ ms, lookupKey grafo p.1 = some ms

/-- Total weight of a path through the graph (sum of the traversed edge
weights), used to state the shortest-path example. -/
def pathWeight (grafo : Grafo) : List Nat → Option Nat
  | [] => some 0
  | [_] => some 0
  | a :: b :: rest =>
      match lookupKey grafo a with
      | none => none
      | some ns =>
          match lookupKey ns b with
          | none => none
          | some w =>
              match pathWeight grafo (b :: rest) with
              | none => none
              | some rw => some (w + rw)

/-! ## Theorems for the claims -/

/-- Helper: with a resolved TTL of 0 the orchestrator performs no cache,
lock or wait interaction at all (the guards at lines 755, 766, 769 and
804-821 all require `ttl_seconds > 0` or a computed cache key). -/
theorem orch_no_cache_when_ttl_zero (env : OrchEnv) (os : OrchSettings)
    (digest : String → String) (coords : List (ℚ × ℚ)) (profile : Option String)
    (cache_ttl : Option Int) (ap : Option (List String))
    (hzero : resolve_cache_ttl os.cacheSettings cache_ttl = 0) :
    ∀ e ∈ (obtener_ruta_ors_por_coordenadas env os digest coords profile cache_ttl ap).2,
      e.isCacheInteraction = false := by
  intro e he
  unfold obtener_ruta_ors_por_coordenadas at he
  rw [hzero] at he
  simp only [lt_self_iff_false, and_false, if_false, false_and] at he
  split at he
  · simp at he
  · split at he
    · simp at he
    · split at he
      · simp at he
      · split at he
        · simp at he
          subst he
          rfl
        · split at he <;> simp at he <;> rcases he with rfl | rfl <;> rfl

/-- C10: `SQLiteCache.release_lock` never inspects the token (calls with
different tokens are identical), never raises, releases the lock when it
is held, and is a no-op when the key is unknown or the lock is not
held. -/
theorem sqlite_release_lock_spec (locks : List (String × Bool)) (key t1 t2 : String) :
    SQLiteCache.release_lock locks key t1 = SQLiteCache.release_lock locks key t2 ∧
    (∃ locks2, SQLiteCache.release_lock locks key t1 = .ok locks2) ∧
    (lookupKey locks key = some true →
      SQLiteCache.release_lock locks key t1 = .ok (setKey locks key false)) ∧
    (lookupKey locks key ≠ some true →
      SQLiteCache.release_lock locks key t1 = .ok locks) := by
  refine ⟨rfl, ?_, ?_, ?_⟩
  · unfold SQLiteCache.release_lock
    cases h : lookupKey locks key with
    | none => exact ⟨locks, rfl⟩
    | some b =>
        cases b with
        | false => exact ⟨locks, rfl⟩
        | true => exact ⟨setKey locks key false, rfl⟩
  · intro h
    unfold SQLiteCache.release_lock
    rw [h]
    rfl
  · intro h
    unfold SQLiteCache.release_lock
    cases hl : lookupKey locks key with
    | none => rfl
    | some b =>
        cases b with
        | false => rfl
        | true => exact absurd hl h

/-- C2 counterexample: in the SQLite backend, `acquire_lock` on a key
whose lock is already held does not return `None`: the underlying
`asyncio.Lock.acquire()` suspends until the holder releases. -/
theorem sqlite_acquire_lock_counterexample :
    SQLiteCache.acquire_lock [("route:k", true)] "route:k" =
      (.waits, [("route:k", true)]) ∧
    LockAcquireOutcome.waits ≠ LockAcquireOutcome.returns none := by
  constructor
  · rfl
  · intro h
    cases h

/-- C2 (amended): the Redis backend returns without waiting — a fresh
token when the lock key is free, `None` when it is already held; the
SQLite backend returns the key as token when the per-key lock is free,
but when the lock is held it waits for the holder instead of returning
`None`. -/
theorem acquire_lock_backend_spec (lockValue : Option String) (freshToken : String)
    (locks : List (String × Bool)) (key : String) :
    ((RedisCache.acquire_lock none freshToken).1 = .returns (some freshToken)) ∧
    (∀ v, (RedisCache.acquire_lock (some v) freshToken).1 = .returns none) ∧
    (lookupKey locks key = some true →
      SQLiteCache.acquire_lock locks key = (.waits, locks)) ∧
    (lookupKey locks key ≠ some true →
      (SQLiteCache.acquire_lock locks key).1 = .returns (some key)) := by
  refine ⟨rfl, fun v => rfl, ?_, ?_⟩
  · intro h
    unfold SQLiteCache.acquire_lock
    rw [h]
  · intro h
    unfold SQLiteCache.acquire_lock
    cases hl : lookupKey locks key with
    | none => rfl
    | some b =>
        cases b with
        | false => rfl
        | true => exact absurd hl h

/-- C3 counterexample: `_resolve_cache_ttl` does not compute
`min(override-if-present-else-default, max)` for every override — a
negative override is clamped to 0 (disabling caching) while the claimed
formula would yield the negative value itself. -/
theorem resolve_cache_ttl_counterexample :
    resolve_cache_ttl ⟨3600, 21600⟩ (some (-1)) = 0 ∧
    min ((-1 : Int)) 21600 = -1 ∧ (0 : Int) ≠ -1 := by decide

/-- C3 (amended): with non-negative configured default and maximum, the
resolved TTL is `min(max(0, override) if present else default, max)`; an
override of 9999 with maximum 60 resolves to 60; and a resolved TTL of 0
makes the orchestrator skip every cache, lock and wait interaction. -/
theorem resolve_cache_ttl_spec (s : CacheSettings) (o : Option Int)
    (hd : 0 ≤ s.CACHE_TTL_SECONDS) (hm : 0 ≤ s.CACHE_MAX_TTL_SECONDS)
    (env : OrchEnv) (os : OrchSettings) (digest : String → String)
    (coords : List (ℚ × ℚ)) (profile : Option String) (ap : Option (List String))
    (hzero : resolve_cache_ttl os.cacheSettings o = 0) :
    resolve_cache_ttl s o =
      min ((o.map (fun v => max 0 v)).getD s.CACHE_TTL_SECONDS) s.CACHE_MAX_TTL_SECONDS ∧
    resolve_cache_ttl ⟨3600, 60⟩ (some 9999) = 60 ∧
    (∀ e ∈ (obtener_ruta_ors_por_coordenadas env os digest coords profile o ap).2,
      e.isCacheInteraction = false) := by
  refine ⟨?_, by decide, orch_no_cache_when_ttl_zero env os digest coords profile o ap hzero⟩
  cases o with
  | none =>
      show (if s.CACHE_TTL_SECONDS = 0 then 0
          else min s.CACHE_TTL_SECONDS s.CACHE_MAX_TTL_SECONDS) =
        min s.CACHE_TTL_SECONDS s.CACHE_MAX_TTL_SECONDS
      split <;> omega
  | some v =>
      show (if max 0 v = 0 then 0
          else min (max 0 v) s.CACHE_MAX_TTL_SECONDS) =
        min (max 0 v) s.CACHE_MAX_TTL_SECONDS
      split <;> omega

/-- C3 witness: the amended statement applied at a concrete
configuration, override and environment. -/
theorem resolve_cache_ttl_spec_witness :
    resolve_cache_ttl ⟨3600, 21600⟩ (some 9999) =
      min ((((some 9999 : Option Int)).map (fun v => max 0 v)).getD 3600) 21600 ∧
    resolve_cache_ttl ⟨3600, 60⟩ (some 9999) = 60 ∧
    (∀ e ∈ (obtener_ruta_ors_por_coordenadas
        ⟨false, .ok none, .ok none, .ok none, none, .error ⟨500, .null⟩,
          fun _ => .error (.uncaught "x"), false, false⟩
        ⟨⟨3600, 0⟩, 30, ["foot-walking"]⟩ id [] none (some 9999) none).2,
      e.isCacheInteraction = false) :=
  resolve_cache_ttl_spec ⟨3600, 21600⟩ (some 9999) (by decide) (by decide)
    ⟨false, .ok none, .ok none, .ok none, none, .error ⟨500, .null⟩,
      fun _ => .error (.uncaught "x"), false, false⟩
    ⟨⟨3600, 0⟩, 30, ["foot-walking"]⟩ id [] none none (by decide)

/-! ### Association-list lookup lemmas -/

/-- Setting an existing key makes lookup return the new value. -/
theorem lookupKey_setKey_self {α β : Type} [DecidableEq α] :
    ∀ {l : List (α × β)} {k : α} {w : β} (v : β),
      lookupKey l k = some w → lookupKey (setKey l k v) k = some v := by
  intro l
  induction l with
  | nil => intro k w v h; simp [lookupKey] at h
  | cons p rest ih =>
      intro k w v h
      obtain ⟨a, b⟩ := p
      rw [lookupKey] at h
      by_cases ha : a = k
      · simp [setKey, ha, lookupKey]
      · rw [if_neg ha] at h
        simp only [setKey, if_neg ha, lookupKey]
        exact ih v h

/-- Setting one key leaves lookups of other keys unchanged. -/
theorem lookupKey_setKey_other {α β : Type} [DecidableEq α] :
    ∀ (l : List (α × β)) {k k2 : α} (v : β), k2 ≠ k →
      lookupKey (setKey l k v) k2 = lookupKey l k2 := by
  intro l
  induction l with
  | nil => intro k k2 v h; rfl
  | cons p rest ih =>
      intro k k2 v h
      obtain ⟨a, b⟩ := p
      by_cases ha : a = k
      · subst ha
        simp only [setKey, if_pos rfl, lookupKey]
        rw [if_neg (fun hc => h hc.symm), if_neg (fun hc => h hc.symm)]
      · simp only [setKey, if_neg ha, lookupKey]
        by_cases ha2 : a = k2
        · rw [if_pos ha2, if_pos ha2]
        · rw [if_neg ha2, if_neg ha2]
          exact ih v h

/-- Appending a new binding is found when the key was absent. -/
theorem lookupKey_append_single {α β : Type} [DecidableEq α] :
    ∀ (l : List (α × β)) {k : α} (v : β), lookupKey l k = none →
      lookupKey (l ++ [(k, v)]) k = some v := by
  intro l
  induction l with
  | nil => intro k v h; simp [lookupKey]
  | cons p rest ih =>
      intro k v h
      obtain ⟨a, b⟩ := p
      rw [lookupKey] at h
      by_cases ha : a = k
      · rw [if_pos ha] at h; cases h
      · rw [if_neg ha] at h
        simp only [List.cons_append, lookupKey, if_neg ha]
        exact ih v h

/-- Appending a binding of a different key changes no other lookup. -/
theorem lookupKey_append_single_other {α β : Type} [DecidableEq α] :
    ∀ (l : List (α × β)) {k k2 : α} (v : β), k2 ≠ k →
      lookupKey (l ++ [(k, v)]) k2 = lookupKey l k2 := by
  intro l
  induction l with
  | nil =>
      intro k k2 v h
      simp only [List.nil_append, lookupKey]
      rw [if_neg (fun hc => h hc.symm)]
  | cons p rest ih =>
      intro k k2 v h
      obtain ⟨a, b⟩ := p
      simp only [List.cons_append, lookupKey]
      by_cases ha : a = k2
      · rw [if_pos ha, if_pos ha]
      · rw [if_neg ha, if_neg ha]
        exact ih v h

/-- `d[k] = v` makes `d.get(k)` return `v`. -/
theorem lookupKey_dictSet_self (d : List (String × Json)) (k : String) (v : Json) :
    lookupKey (dictSet d k v) k = some v := by
  unfold dictSet
  cases h : lookupKey d k with
  | none => exact lookupKey_append_single d v h
  | some w => exact lookupKey_setKey_self v h

/-- `d[k] = v` leaves `d.get(k2)` unchanged for `k2 ≠ k`. -/
theorem lookupKey_dictSet_other (d : List (String × Json)) {k k2 : String}
    (v : Json) (h : k2 ≠ k) :
    lookupKey (dictSet d k v) k2 = lookupKey d k2 := by
  unfold dictSet
  cases hl : lookupKey d k with
  | none => exact lookupKey_append_single_other d v h
  | some w => exact lookupKey_setKey_other d v h

/-- `overrideCode` always stores the new code under `"code"`. -/
theorem overrideCode_code (d : List (String × Json)) (c msg : String) :
    lookupKey (overrideCode d c msg) "code" = some (.str c) := by
  simp only [overrideCode, dictUpdate]
  rw [lookupKey_dictSet_other _ _ (by decide), lookupKey_dictSet_self]

/-- `overrideCode` always leaves a value under `"message"`. -/
theorem overrideCode_message (d : List (String × Json)) (c msg : String) :
    ∃ v, lookupKey (overrideCode d c msg) "message" = some v := by
  simp only [overrideCode, dictUpdate]
  exact ⟨_, lookupKey_dictSet_self _ _ _⟩

/-! ### C4: retries on upstream 5xx -/

/-- An attempt that yields an HTTP response with a 5xx status. -/
def isServerErrorAttempt : HttpAttemptResult → Prop
  | .response r => 500 ≤ r.status_code ∧ r.status_code < 600
  | _ => False

/-- Helper: under all-5xx responses, the retry loop sleeps
`backoffSleepOr1` once per remaining attempt and ends with the 502
`ors_unavailable` error. -/
theorem ors_request_loop_5xx (bf : ℚ) (responses : Nat → HttpAttemptResult)
    (h5 : ∀ n, isServerErrorAttempt (responses n)) :
    ∀ (remaining attempt : Nat),
      (∃ d, (ors_request_loop bf responses attempt remaining).1 =
          Except.error ⟨502, Json.obj d⟩ ∧
          lookupKey d "code" = some (.str "ors_unavailable")) ∧
      (ors_request_loop bf responses attempt remaining).2 =
        (List.range remaining).map (fun k => backoffSleepOr1 bf (attempt + k)) := by
  intro remaining
  induction remaining with
  | zero =>
      intro attempt
      have h := h5 attempt
      cases hresp : responses attempt with
      | timeoutExc => rw [hresp] at h; cases h
      | requestExc => rw [hresp] at h; cases h
      | response r =>
          rw [hresp] at h
          obtain ⟨hlo, hhi⟩ := h
          rw [ors_request_loop, hresp]
          have h200 : ¬ r.status_code = 200 := by omega
          have h400 : ¬ r.status_code = 400 := by omega
          have h401 : ¬ r.status_code = 401 := by omega
          have h403 : ¬ r.status_code = 403 := by omega
          have h429 : ¬ r.status_code = 429 := by omega
          have h404 : ¬ r.status_code = 404 := by omega
          have hcond : 500 ≤ r.status_code ∧ r.status_code < 600 := ⟨hlo, hhi⟩
          simp only [h200, h400, h401, h403, h429, h404, hcond, and_self,
            if_false, if_true, ite_false, ite_true]
          exact ⟨⟨_, rfl, overrideCode_code _ _ _⟩, by simp⟩
  | succ rem ih =>
      intro attempt
      have h := h5 attempt
      cases hresp : responses attempt with
      | timeoutExc => rw [hresp] at h; cases h
      | requestExc => rw [hresp] at h; cases h
      | response r =>
          rw [hresp] at h
          obtain ⟨hlo, hhi⟩ := h
          rw [ors_request_loop, hresp]
          have h200 : ¬ r.status_code = 200 := by omega
          have h400 : ¬ r.status_code = 400 := by omega
          have h401 : ¬ r.status_code = 401 := by omega
          have h403 : ¬ r.status_code = 403 := by omega
          have h429 : ¬ r.status_code = 429 := by omega
          have h404 : ¬ r.status_code = 404 := by omega
          have hcond : 500 ≤ r.status_code ∧ r.status_code < 600 := ⟨hlo, hhi⟩
          simp only [h200, h400, h401, h403, h429, h404, hcond, and_self,
            if_false, if_true, ite_false, ite_true]
          refine ⟨(ih (attempt + 1)).1, ?_⟩
          show backoffSleepOr1 bf attempt ::
              (ors_request_loop bf responses (attempt + 1) rem).2 =
            (List.range (rem + 1)).map (fun k => backoffSleepOr1 bf (attempt + k))
          rw [(ih (attempt + 1)).2, List.range_succ_eq_map]
          simp only [List.map_cons, List.map_map, Nat.add_zero]
          congr 1
          apply List.map_congr_left
          intro k hk
          simp only [Function.comp]
          congr 1
          omega

/-- C4 counterexample: with a configured backoff factor of 0 (allowed by
`max(0.0, …)`) and 2 retries against a permanently-503 upstream, the
`or 1.0` fallback makes both sleeps exactly 1 second — the backoff is
not strictly increasing. -/
theorem retry_5xx_counterexample :
    (hacer_peticion_ors ⟨2, 0⟩ (fun _ => .response ⟨503, none, ""⟩)).2 = [1, 1] ∧
    ¬ ([(1 : ℚ), 1].Pairwise (· < ·)) := by
  constructor
  · have h := (ors_request_loop_5xx (ors_backoff ⟨2, 0⟩)
      (fun _ => .response ⟨503, none, ""⟩)
      (fun _ => ⟨by norm_num, by norm_num⟩) 2 1).2
    have ha : ors_attempts ⟨2, 0⟩ - 1 = 2 := by decide
    unfold hacer_peticion_ors
    rw [ha, h]
    have hbf : ors_backoff ⟨2, 0⟩ = 0 := by
      unfold ors_backoff
      norm_num
    rw [hbf]
    have h1 : backoffSleepOr1 0 (1 + 0) = 1 := by
      unfold backoffSleepOr1 backoffSleep
      norm_num
    have h2 : backoffSleepOr1 0 (1 + 1) = 1 := by
      unfold backoffSleepOr1 backoffSleep
      norm_num
    simp [List.range_succ, h1, h2]
  · intro h
    rcases h with - | ⟨h1, -⟩
    exact absurd (h1 1 (by simp)) (by norm_num)

/-- C4 (amended): against an upstream that answers 5xx on every attempt,
the client retries exactly `ORS_MAX_RETRIES` times (one sleep per
retry), fails with the 502 `ors_unavailable` error after exhaustion, and
the sleeps are strictly increasing whenever the configured backoff
factor is positive; with a non-positive factor every sleep is exactly
1.0 second instead. -/
theorem retry_5xx_spec (s : OrsRetrySettings) (responses : Nat → HttpAttemptResult)
    (h5 : ∀ n, isServerErrorAttempt (responses n)) (hr : 0 ≤ s.ORS_MAX_RETRIES) :
    (hacer_peticion_ors s responses).2.length = s.ORS_MAX_RETRIES.toNat ∧
    (∃ d, (hacer_peticion_ors s responses).1 = Except.error ⟨502, Json.obj d⟩ ∧
      lookupKey d "code" = some (.str "ors_unavailable")) ∧
    (0 < s.ORS_BACKOFF_FACTOR → (hacer_peticion_ors s responses).2.Pairwise (· < ·)) ∧
    (s.ORS_BACKOFF_FACTOR ≤ 0 → ∀ x ∈ (hacer_peticion_ors s responses).2, x = 1) := by
  have hloop := ors_request_loop_5xx (ors_backoff s) responses h5 s.ORS_MAX_RETRIES.toNat 1
  have hattempts : ors_attempts s - 1 = s.ORS_MAX_RETRIES.toNat := by
    unfold ors_attempts
    omega
  unfold hacer_peticion_ors
  rw [hattempts]
  refine ⟨?_, hloop.1, ?_, ?_⟩
  · rw [hloop.2]
    simp
  · intro hbf
    rw [hloop.2]
    have hbfeq : ors_backoff s = s.ORS_BACKOFF_FACTOR := by
      unfold ors_backoff
      exact max_eq_right hbf.le
    have hval : ∀ k : Nat, backoffSleepOr1 (ors_backoff s) (1 + k) =
        s.ORS_BACKOFF_FACTOR * 2 ^ k := by
      intro k
      unfold backoffSleepOr1 backoffSleep
      rw [hbfeq]
      have hk : 1 + k - 1 = k := by omega
      rw [hk, if_neg (by positivity)]
    refine List.Pairwise.map _ ?_ (List.pairwise_lt_range _)
    intro a b hab
    rw [hval a, hval b]
    gcongr
    norm_num
  · intro hbf
    have hbfeq : ors_backoff s = 0 := by
      unfold ors_backoff
      exact max_eq_left hbf
    intro x hx
    rw [hloop.2, hbfeq] at hx
    simp only [List.mem_map, List.mem_range] at hx
    obtain ⟨k, -, rfl⟩ := hx
    unfold backoffSleepOr1 backoffSleep
    rw [if_pos (by ring)]

/-- C4 witness: the amended statement at a concrete configuration
(2 retries, factor 3/4) against a permanently-503 upstream. -/
theorem retry_5xx_spec_witness :
    (hacer_peticion_ors ⟨2, 3/4⟩ (fun _ => .response ⟨503, none, ""⟩)).2.length =
      (2 : Int).toNat ∧
    (∃ d, (hacer_peticion_ors ⟨2, 3/4⟩ (fun _ => .response ⟨503, none, ""⟩)).1 =
      Except.error ⟨502, Json.obj d⟩ ∧
      lookupKey d "code" = some (.str "ors_unavailable")) ∧
    ((0 : ℚ) < 3/4 →
      (hacer_peticion_ors ⟨2, 3/4⟩ (fun _ => .response ⟨503, none, ""⟩)).2.Pairwise (· < ·)) ∧
    ((3/4 : ℚ) ≤ 0 →
      ∀ x ∈ (hacer_peticion_ors ⟨2, 3/4⟩ (fun _ => .response ⟨503, none, ""⟩)).2, x = 1) :=
  retry_5xx_spec ⟨2, 3/4⟩ (fun _ => .response ⟨503, none, ""⟩)
    (fun _ => ⟨by norm_num, by norm_num⟩) (by norm_num)

/-! ### C5: error detail shapes -/

/-- A dict write preserves the presence of any key. -/
theorem presence_dictSet (d : List (String × Json)) (k : String) (v : Json)
    (key : String) (h : ∃ x, lookupKey d key = some x) :
    ∃ x, lookupKey (dictSet d k v) key = some x := by
  by_cases hk : key = k
  · subst hk
    exact ⟨v, lookupKey_dictSet_self d key v⟩
  · obtain ⟨x, hx⟩ := h
    refine ⟨x, ?_⟩
    rw [lookupKey_dictSet_other d v hk]
    exact hx

/-- The error-payload overlay preserves the presence of any key. -/
theorem presence_overlay (detail fields : List (String × Json)) (key : String)
    (h : ∃ x, lookupKey detail key = some x) :
    ∃ x, lookupKey (ors_detail_overlay_error detail fields) key = some x := by
  unfold ors_detail_overlay_error
  repeat'
    first
    | exact h
    | apply presence_dictSet
    | split
    | simp only []

/-- The fallback fill-in preserves the presence of any key. -/
theorem presence_fill (detail fields : List (String × Json)) (key : String)
    (h : ∃ x, lookupKey detail key = some x) :
    ∃ x, lookupKey (ors_detail_fill_missing detail fields) key = some x := by
  unfold ors_detail_fill_missing
  repeat'
    first
    | exact h
    | apply presence_dictSet
    | split
    | simp only []

/-- `_extract_ors_error_detail` always leaves a `code` entry. -/
theorem extract_detail_code (r : HttpResponse) :
    ∃ c, lookupKey (extract_ors_error_detail r) "code" = some c := by
  have hb : ∃ c, lookupKey (ors_detail_base r) "code" = some c := ⟨_, rfl⟩
  unfold extract_ors_error_detail
  split
  · simp only []
    split
    · exact hb
    · exact presence_dictSet _ _ _ _ hb
  · exact presence_fill _ _ _ (presence_overlay _ _ _ hb)
  · exact hb

/-- `_extract_ors_error_detail` always leaves a `message` entry. -/
theorem extract_detail_message (r : HttpResponse) :
    ∃ m, lookupKey (extract_ors_error_detail r) "message" = some m := by
  have hb : ∃ m, lookupKey (ors_detail_base r) "message" = some m := ⟨_, rfl⟩
  unfold extract_ors_error_detail
  split
  · simp only []
    split
    · exact hb
    · exact presence_dictSet _ _ _ _ hb
  · exact presence_fill _ _ _ (presence_overlay _ _ _ hb)
  · exact hb

/-- Helper: every `HTTPException` the upstream retry loop raises has a
dict detail with both a `code` and a `message` entry. -/
theorem ors_request_loop_error_detail (bf : ℚ) (responses : Nat → HttpAttemptResult) :
    ∀ (remaining attempt : Nat) (e : HttpErr),
      (ors_request_loop bf responses attempt remaining).1 = .error e →
      ∃ d, e.detail = .obj d ∧ (∃ c, lookupKey d "code" = some c) ∧
        (∃ m, lookupKey d "message" = some m) := by
  intro remaining
  induction remaining with
  | zero =>
      intro attempt e h
      rw [ors_request_loop] at h
      split at h
      · simp only at h
        injection h with h
        subst h
        exact ⟨_, rfl, ⟨_, rfl⟩, ⟨_, rfl⟩⟩
      · simp only at h
        injection h with h
        subst h
        exact ⟨_, rfl, ⟨_, rfl⟩, ⟨_, rfl⟩⟩
      · rename_i r hresp
        split at h
        · split at h
          · simp at h
          · injection h with h
            subst h
            exact ⟨_, rfl, ⟨_, rfl⟩, ⟨_, rfl⟩⟩
        · split at h
          · injection h with h
            subst h
            exact ⟨_, rfl, ⟨_, overrideCode_code _ _ _⟩, overrideCode_message _ _ _⟩
          · split at h
            · injection h with h
              subst h
              exact ⟨_, rfl, ⟨_, overrideCode_code _ _ _⟩, overrideCode_message _ _ _⟩
            · split at h
              · injection h with h
                subst h
                exact ⟨_, rfl, ⟨_, overrideCode_code _ _ _⟩, overrideCode_message _ _ _⟩
              · split at h
                · injection h with h
                  subst h
                  exact ⟨_, rfl, ⟨_, overrideCode_code _ _ _⟩, overrideCode_message _ _ _⟩
                · split at h
                  · injection h with h
                    subst h
                    exact ⟨_, rfl, ⟨_, overrideCode_code _ _ _⟩, overrideCode_message _ _ _⟩
                  · split at h
                    · injection h with h
                      subst h
                      exact ⟨_, rfl, ⟨_, overrideCode_code _ _ _⟩, overrideCode_message _ _ _⟩
                    · injection h with h
                      subst h
                      exact ⟨_, rfl, extract_detail_code r, extract_detail_message r⟩
  | succ rem ih =>
      intro attempt e h
      rw [ors_request_loop] at h
      split at h
      · exact ih (attempt + 1) e h
      · exact ih (attempt + 1) e h
      · rename_i r hresp
        split at h
        · split at h
          · simp at h
          · injection h with h
            subst h
            exact ⟨_, rfl, ⟨_, rfl⟩, ⟨_, rfl⟩⟩
        · split at h
          · injection h with h
            subst h
            exact ⟨_, rfl, ⟨_, overrideCode_code _ _ _⟩, overrideCode_message _ _ _⟩
          · split at h
            · injection h with h
              subst h
              exact ⟨_, rfl, ⟨_, overrideCode_code _ _ _⟩, overrideCode_message _ _ _⟩
            · split at h
              · injection h with h
                subst h
                exact ⟨_, rfl, ⟨_, overrideCode_code _ _ _⟩, overrideCode_message _ _ _⟩
              · split at h
                · exact ih (attempt + 1) e h
                · split at h
                  · injection h with h
                    subst h
                    exact ⟨_, rfl, ⟨_, overrideCode_code _ _ _⟩, overrideCode_message _ _ _⟩
                  · split at h
                    · exact ih (attempt + 1) e h
                    · injection h with h
                      subst h
                      exact ⟨_, rfl, extract_detail_code r, extract_detail_message r⟩

/-- C5 counterexample: the `invalid_profile` error raised for the
unknown profile `"rocket"` carries a machine-readable code, the
allow-list and the received value — but no human-readable `message`
entry, contradicting the claim that every externally visible error
carries both. -/
theorem error_detail_counterexample :
    normalize_profile (some "rocket") none
        ["foot-walking", "driving-car", "cycling-regular"] =
      .error ⟨400, .obj
        [("code", .str "invalid_profile"),
         ("allowed", .arr [.str "foot-walking", .str "driving-car", .str "cycling-regular"]),
         ("received", .str "rocket")]⟩ ∧
    lookupKey
        [("code", Json.str "invalid_profile"),
         ("allowed", Json.arr [.str "foot-walking", .str "driving-car", .str "cycling-regular"]),
         ("received", Json.str "rocket")] "message" = none := by
  constructor
  · rfl
  · rfl

/-- C5 (amended): upstream-client errors all carry a dict detail with
both `code` and `message`; profile rejection carries `code`, `allowed`
and `received` but no `message`; and the normalization failures for a
malformed routes structure, an empty route list, an unsupported
geometry, and a missing summary carry a bare human-readable string as
their whole detail, with no machine-readable code field. -/
theorem error_detail_spec :
    (∀ (s : OrsRetrySettings) (responses : Nat → HttpAttemptResult) (e : HttpErr),
      (hacer_peticion_ors s responses).1 = .error e →
      ∃ d, e.detail = .obj d ∧ (∃ c, lookupKey d "code" = some c) ∧
        (∃ m, lookupKey d "message" = some m)) ∧
    (∀ (profile : Option String) (ap : Option (List String)) (sp : List String)
      (e : HttpErr), normalize_profile profile ap sp = .error e →
      ∃ d, e.detail = .obj d ∧
        lookupKey d "code" = some (.str "invalid_profile") ∧
        (∃ a, lookupKey d "allowed" = some a) ∧
        (∃ rv, lookupKey d "received" = some rv) ∧
        lookupKey d "message" = none) ∧
    (∀ pd, procesar_respuesta_ors pd (.obj []) =
      .error (.http ⟨500, .str "Estructura de respuesta inválida de OpenRouteService"⟩)) ∧
    (∀ pd, procesar_respuesta_ors pd (.obj [("routes", .arr [])]) =
      .error (.http ⟨404, .str "No se pudo calcular ruta entre las ubicaciones"⟩)) ∧
    (∀ pd, procesar_respuesta_ors pd (.obj [("routes", .arr [.obj [("geometry", .num 5)]])]) =
      .error (.http ⟨500, .str "Formato de geometría no soportado"⟩)) ∧
    (procesar_respuesta_ors (fun _ => some [])
        (.obj [("routes", .arr [.obj [("geometry", .str "x")]])]) =
      .error (.http ⟨500, .str "Resumen de ruta no disponible"⟩)) := by
  refine ⟨?_, ?_, fun pd => rfl, fun pd => rfl, fun pd => rfl, rfl⟩
  · intro s responses e h
    exact ors_request_loop_error_detail (ors_backoff s) responses (ors_attempts s - 1) 1 e h
  · intro profile ap sp e h
    unfold normalize_profile at h
    simp only [] at h
    repeat' split at h
    all_goals
      first
      | (injection h with h
         subst h
         exact ⟨_, rfl, rfl, ⟨_, rfl⟩, ⟨_, rfl⟩, rfl⟩)
      | simp at h

/-! ### C1: failure after acquiring the lock -/

/-- C1: when caching is active, the cache read misses, the per-key lock
is acquired, and then the upstream request or the response processing
fails, the error propagates to the caller and no cache write occurs —
but, the upstream call and processing (ors_routing.py lines 788-793)
being outside any `try`/`finally`, no lock release is attempted either
before the call returns: the release code (lines 804-821) is never
reached.  The spec's "still attempt lock release if one was held" fails
on this path. -/
theorem orch_failure_after_lock_no_release (env : OrchEnv) (os : OrchSettings)
    (digest : String → String) (coords : List (ℚ × ℚ)) (profile : Option String)
    (cache_ttl : Option Int) (ap : Option (List String)) (np k t : String) (e : ProcErr)
    (hv : validate_coordinates coords = .ok coords)
    (hnp : normalize_profile profile ap os.ORS_ALLOWED_PROFILES = .ok np)
    (hkey : build_cache_key digest np coords "coords" = .ok k)
    (hcache : env.cacheAvailable = true)
    (httl : 0 < resolve_cache_ttl os.cacheSettings cache_ttl)
    (hget : env.getOutcome = .ok none)
    (hlock : env.lockOutcome = .ok (some t))
    (hcfg : env.configError = none)
    (hfail : (∃ he, env.requestOutcome = .error he ∧ e = .http he) ∨
      (∃ b, env.requestOutcome = .ok b ∧ env.processOutcome b = .error e)) :
    (obtener_ruta_ors_por_coordenadas env os digest coords profile cache_ttl ap).1 =
      .error e ∧
    OrchEvent.lockAcquire k ∈
      (obtener_ruta_ors_por_coordenadas env os digest coords profile cache_ttl ap).2 ∧
    (∀ ev ∈ (obtener_ruta_ors_por_coordenadas env os digest coords profile cache_ttl ap).2,
      ev.isCacheSet = false) ∧
    (∀ ev ∈ (obtener_ruta_ors_por_coordenadas env os digest coords profile cache_ttl ap).2,
      ev.isLockRelease = false) := by
  have hrun : obtener_ruta_ors_por_coordenadas env os digest coords profile cache_ttl ap =
      (.error e, [OrchEvent.cacheGet k, OrchEvent.lockAcquire k] ++
        (match env.requestOutcome with
          | .error _ => [OrchEvent.upstreamRequest]
          | .ok _ => [OrchEvent.upstreamRequest, OrchEvent.processResponse])) := by
    unfold obtener_ruta_ors_por_coordenadas
    rw [hv]
    simp only []
    rw [hnp]
    simp only [hkey, hcache, httl, hget, hlock, hcfg, and_true, true_and, if_pos]
    rcases hfail with ⟨he, hreq, rfl⟩ | ⟨b, hreq, hproc⟩
    · rw [hreq]
      rfl
    · rw [hreq]
      simp only [hproc]
      rfl
  rw [hrun]
  refine ⟨rfl, by simp, ?_, ?_⟩ <;>
    (intro ev hev
     rw [List.mem_append] at hev
     rcases hev with hev | hev
     · simp only [List.mem_cons, List.not_mem_nil, or_false] at hev
       rcases hev with rfl | rfl <;> rfl
     · split at hev <;>
         simp only [List.mem_cons, List.not_mem_nil, or_false] at hev <;>
         first
         | (subst hev
            rfl)
         | (rcases hev with rfl | rfl <;> rfl))

/-- C1 witness: the failure path exercised at a concrete environment
(clean miss, lock acquired, upstream answers only 500s). -/
theorem orch_failure_after_lock_no_release_witness :
    (obtener_ruta_ors_por_coordenadas
        ⟨true, .ok none, .ok (some "tok"), .ok none, none,
          .error ⟨502, .str "ors down"⟩, fun _ => .error (.uncaught "x"), false, false⟩
        ⟨⟨3600, 21600⟩, 30, ["foot-walking"]⟩ id [(-110, 29), (-111, 30)]
        none none none).1 = .error (.http ⟨502, .str "ors down"⟩) ∧
    OrchEvent.lockAcquire ("route:" ++ id
        ("coords|foot-walking|-110.000000,29.000000|-111.000000,30.000000")) ∈
      (obtener_ruta_ors_por_coordenadas
        ⟨true, .ok none, .ok (some "tok"), .ok none, none,
          .error ⟨502, .str "ors down"⟩, fun _ => .error (.uncaught "x"), false, false⟩
        ⟨⟨3600, 21600⟩, 30, ["foot-walking"]⟩ id [(-110, 29), (-111, 30)]
        none none none).2 ∧
    (∀ ev ∈ (obtener_ruta_ors_por_coordenadas
        ⟨true, .ok none, .ok (some "tok"), .ok none, none,
          .error ⟨502, .str "ors down"⟩, fun _ => .error (.uncaught "x"), false, false⟩
        ⟨⟨3600, 21600⟩, 30, ["foot-walking"]⟩ id [(-110, 29), (-111, 30)]
        none none none).2, ev.isCacheSet = false) ∧
    (∀ ev ∈ (obtener_ruta_ors_por_coordenadas
        ⟨true, .ok none, .ok (some "tok"), .ok none, none,
          .error ⟨502, .str "ors down"⟩, fun _ => .error (.uncaught "x"), false, false⟩
        ⟨⟨3600, 21600⟩, 30, ["foot-walking"]⟩ id [(-110, 29), (-111, 30)]
        none none none).2, ev.isLockRelease = false) :=
  orch_failure_after_lock_no_release
    ⟨true, .ok none, .ok (some "tok"), .ok none, none,
      .error ⟨502, .str "ors down"⟩, fun _ => .error (.uncaught "x"), false, false⟩
    ⟨⟨3600, 21600⟩, 30, ["foot-walking"]⟩ id [(-110, 29), (-111, 30)]
    none none none "foot-walking"
    ("route:" ++ id ("coords|foot-walking|-110.000000,29.000000|-111.000000,30.000000"))
    "tok" (.http ⟨502, .str "ors down"⟩)
    rfl rfl
    (by unfold build_cache_key format_coord_pair format6 pyRoundHalfEven pad6
        norm_num
        rfl)
    rfl (by decide) rfl rfl rfl
    (.inl ⟨⟨502, .str "ors down"⟩, rfl, rfl⟩)

/-! ### C9: the cache key ignores intermediate waypoints -/

/-- Helper: a fresh cache hit returns the cached payload after the
single `get` interaction (lines 755-761). -/
theorem orch_cache_hit (env : OrchEnv) (os : OrchSettings) (digest : String → String)
    (coords : List (ℚ × ℚ)) (profile : Option String) (cache_ttl : Option Int)
    (ap : Option (List String)) (np k : String) (cached : Json)
    (hv : validate_coordinates coords = .ok coords)
    (hnp : normalize_profile profile ap os.ORS_ALLOWED_PROFILES = .ok np)
    (hkey : build_cache_key digest np coords "coords" = .ok k)
    (hcache : env.cacheAvailable = true)
    (httl : 0 < resolve_cache_ttl os.cacheSettings cache_ttl)
    (hget : env.getOutcome = .ok (some cached)) :
    obtener_ruta_ors_por_coordenadas env os digest coords profile cache_ttl ap =
      (.ok cached, [OrchEvent.cacheGet k]) := by
  unfold obtener_ruta_ors_por_coordenadas
  rw [hv]
  simp only []
  rw [hnp]
  simp only [hkey, hcache, httl, hget, and_true, true_and, if_pos]

/-- C9: `_build_cache_key` hashes only the variant tag, the profile and
the 6-decimal-formatted first and last coordinates, so two sanitized
coordinate lists that agree there — however their intermediate waypoints
differ — get the same key; consequently a multi-waypoint request whose
key hits the cache is served the cached payload, whatever route produced
it. -/
theorem cache_key_ignores_waypoints (digest : String → String) (profile variant : String)
    (p1 p2 : ℚ × ℚ) (t1 t2 : List (ℚ × ℚ))
    (hhead : format_coord_pair p1.1 p1.2 = format_coord_pair p2.1 p2.2)
    (hlast : format_coord_pair ((p1 :: t1).getLastD p1).1 ((p1 :: t1).getLastD p1).2 =
      format_coord_pair ((p2 :: t2).getLastD p2).1 ((p2 :: t2).getLastD p2).2) :
    build_cache_key digest profile (p1 :: t1) variant =
      build_cache_key digest profile (p2 :: t2) variant ∧
    (∀ (env : OrchEnv) (os : OrchSettings) (prof : Option String)
      (cache_ttl : Option Int) (ap : Option (List String)) (np k : String)
      (cached : Json),
      validate_coordinates (p1 :: t1) = .ok (p1 :: t1) →
      normalize_profile prof ap os.ORS_ALLOWED_PROFILES = .ok np →
      build_cache_key digest np (p1 :: t1) "coords" = .ok k →
      env.cacheAvailable = true →
      0 < resolve_cache_ttl os.cacheSettings cache_ttl →
      env.getOutcome = .ok (some cached) →
      obtener_ruta_ors_por_coordenadas env os digest (p1 :: t1) prof cache_ttl ap =
        (.ok cached, [OrchEvent.cacheGet k])) := by
  constructor
  · unfold build_cache_key
    simp only []
    rw [hhead, hlast]
  · intro env os prof cache_ttl ap np k cached hv hnp hkey hcache httl hget
    exact orch_cache_hit env os digest (p1 :: t1) prof cache_ttl ap np k cached
      hv hnp hkey hcache httl hget

/-- C9 witness: two concrete routes sharing endpoints, one with an extra
waypoint, get the same key, and the hit path serves the cached payload
for the longer one. -/
theorem cache_key_ignores_waypoints_witness :
    build_cache_key id "foot-walking" [((-110 : ℚ), (29 : ℚ)), (0, 0), (-111, 30)] "coords" =
      build_cache_key id "foot-walking" [((-110 : ℚ), (29 : ℚ)), (-111, 30)] "coords" ∧
    (∀ (env : OrchEnv) (os : OrchSettings) (prof : Option String)
      (cache_ttl : Option Int) (ap : Option (List String)) (np k : String)
      (cached : Json),
      validate_coordinates [((-110 : ℚ), (29 : ℚ)), (0, 0), (-111, 30)] =
        .ok [((-110 : ℚ), (29 : ℚ)), (0, 0), (-111, 30)] →
      normalize_profile prof ap os.ORS_ALLOWED_PROFILES = .ok np →
      build_cache_key id np [((-110 : ℚ), (29 : ℚ)), (0, 0), (-111, 30)] "coords" = .ok k →
      env.cacheAvailable = true →
      0 < resolve_cache_ttl os.cacheSettings cache_ttl →
      env.getOutcome = .ok (some cached) →
      obtener_ruta_ors_por_coordenadas env os id
          [((-110 : ℚ), (29 : ℚ)), (0, 0), (-111, 30)] prof cache_ttl ap =
        (.ok cached, [OrchEvent.cacheGet k])) :=
  cache_key_ignores_waypoints id "foot-walking" "coords"
    (-110, 29) (-110, 29) [(0, 0), (-111, 30)] [(-111, 30)] rfl rfl

/-! ### C6: deep copy on cache hits -/

/-- All children of a node lie at or above `n` (the node lives entirely
in the fresh region). -/
def nodeChildrenGE (node : HNode) (n : Nat) : Prop :=
  match node with
  | .hatom _ => True
  | .hcontainer _ cs => ∀ c ∈ cs, n ≤ c

mutual
/-- Reading is unaffected by heap changes outside the region below `m`,
provided every stored container points below `m` and the root lies
below `m`. -/
theorem readVal_frame (h h2 : Nat → Option HNode) (m : Nat)
    (hagree : ∀ a, a < m → h2 a = h a)
    (hcl : ∀ a tag cs, h a = some (.hcontainer tag cs) → ∀ c ∈ cs, c < m) :
    ∀ (fuel root : Nat), root < m → readVal h2 root fuel = readVal h root fuel
  | 0, root => by
      intro _
      simp only [readVal]
  | fuel + 1, root => by
      intro hroot
      simp only [readVal, hagree root hroot]
      cases hr : h root with
      | none => rfl
      | some node =>
          cases node with
          | hatom s => rfl
          | hcontainer tag cs =>
              simp only [readChildren_frame h h2 m hagree hcl (fuel + 1) cs
                (hcl root tag cs hr)]
termination_by fuel _ => (fuel, 1, 0)
/-- List version of `readVal_frame`. -/
theorem readChildren_frame (h h2 : Nat → Option HNode) (m : Nat)
    (hagree : ∀ a, a < m → h2 a = h a)
    (hcl : ∀ a tag cs, h a = some (.hcontainer tag cs) → ∀ c ∈ cs, c < m) :
    ∀ (fuel : Nat) (cs : List Nat), (∀ c ∈ cs, c < m) →
      readChildren h2 cs fuel = readChildren h cs fuel
  | 0, cs => by
      intro _
      simp only [readChildren]
  | fuel + 1, [] => by
      intro _
      simp only [readChildren]
  | fuel + 1, c :: cs => by
      intro hcs
      simp only [readChildren]
      rw [readVal_frame h h2 m hagree hcl fuel c (hcs c (by simp)),
        readChildren_frame h h2 m hagree hcl (fuel + 1) cs
          (fun x hx => hcs x (by simp [hx]))]
termination_by fuel cs => (fuel, 0, cs.length)
end

mutual
/-- What `deepcopyAlloc` guarantees on a heap closed below `n`: the copy
root is fresh, the old region is untouched, the extended heap is closed
below the new bound, the whole copy region points into itself, and
reading the copy back yields the copied value. -/
theorem deepcopyAlloc_spec : ∀ (v : PyVal) (h : Nat → Option HNode) (n : Nat),
    HeapClosed h n →
    ∀ h1 n1 root, deepcopyAlloc v h n = (h1, n1, root) →
    n ≤ root ∧ root < n1 ∧
    (∀ a, a < n → h1 a = h a) ∧
    HeapClosed h1 n1 ∧
    (∀ a node, n ≤ a → h1 a = some node → nodeChildrenGE node n) ∧
    (∀ f, v.depth ≤ f → readVal h1 root f = some v)
  | .atom s, h, n => by
      intro hc h1 n1 root heq
      simp only [deepcopyAlloc, Prod.mk.injEq] at heq
      obtain ⟨rfl, rfl, rfl⟩ := heq
      refine ⟨Nat.le_refl n, Nat.lt_succ_self n, ?_, ⟨?_, ?_⟩, ?_, ?_⟩
      · intro a ha
        simp only [heapWrite]
        rw [if_neg (by omega)]
      · intro a ha
        simp only [heapWrite]
        rw [if_neg (by omega)]
        exact hc.1 a (by omega)
      · intro a tg cs hstore
        simp only [heapWrite] at hstore
        split at hstore
        · cases hstore
        · intro c hcin
          have := hc.2 a tg cs hstore c hcin
          omega
      · intro a node ha hstore
        simp only [heapWrite] at hstore
        split at hstore
        · injection hstore with hstore
          subst hstore
          trivial
        · rw [hc.1 a ha] at hstore
          cases hstore
      · intro f hf
        have hfs : ∃ f0, f = f0 + 1 := by
          cases f with
          | zero => simp [PyVal.depth] at hf
          | succ f0 => exact ⟨f0, rfl⟩
        obtain ⟨f0, rfl⟩ := hfs
        simp [readVal, heapWrite]
  | .container tag items, h, n => by
      intro hc h1 n1 root heq
      obtain ⟨⟨hL, nL, addrs⟩, heqL⟩ :
          ∃ r, deepcopyAllocList items h n = r := ⟨_, rfl⟩
      obtain ⟨hLaddrs, hLn, hLframe, hLclosed, hLlower, hLread⟩ :=
        deepcopyAllocList_spec items h n hc hL nL addrs heqL
      simp only [deepcopyAlloc, heqL, Prod.mk.injEq] at heq
      obtain ⟨rfl, rfl, rfl⟩ := heq
      refine ⟨hLaddrs, Nat.lt_succ_self nL, ?_, ⟨?_, ?_⟩, ?_, ?_⟩
      · intro a ha
        simp only [heapWrite]
        rw [if_neg (by omega)]
        exact hLframe a ha
      · intro a ha
        simp only [heapWrite]
        rw [if_neg (by omega)]
        exact hLclosed.1 a (by omega)
      · intro a tg cs hstore
        simp only [heapWrite] at hstore
        split at hstore
        · injection hstore with hstore
          cases hstore
          intro c hcin
          have := (hLn c hcin).2
          omega
        · intro c hcin
          have := hLclosed.2 a tg cs hstore c hcin
          omega
      · intro a node ha hstore
        simp only [heapWrite] at hstore
        split at hstore
        · injection hstore with hstore
          subst hstore
          intro c hcin
          exact (hLn c hcin).1
        · exact hLlower a node ha hstore
      · intro f hf
        have hfs : ∃ f0, f = f0 + 1 ∧ PyValList.depthList items ≤ f0 := by
          cases f with
          | zero => simp [PyVal.depth] at hf
          | succ f0 =>
              refine ⟨f0, rfl, ?_⟩
              simp only [PyVal.depth] at hf
              omega
        obtain ⟨f0, rfl, hf0⟩ := hfs
        have hframe := readChildren_frame hL (heapWrite hL nL (.hcontainer tag addrs)) nL
          (fun a ha => by
            simp only [heapWrite]
            rw [if_neg (by omega)])
          (fun a tg cs hstore c hcin => hLclosed.2 a tg cs hstore c hcin)
          (f0 + 1) addrs (fun c hcin => (hLn c hcin).2)
        simp [readVal, heapWrite, hframe, hLread f0 hf0]
/-- List version of `deepcopyAlloc_spec`. -/
theorem deepcopyAllocList_spec : ∀ (vs : PyValList) (h : Nat → Option HNode) (n : Nat),
    HeapClosed h n →
    ∀ h1 n1 addrs, deepcopyAllocList vs h n = (h1, n1, addrs) →
    n ≤ n1 ∧
    (∀ a ∈ addrs, n ≤ a ∧ a < n1) ∧
    (∀ a, a < n → h1 a = h a) ∧
    HeapClosed h1 n1 ∧
    (∀ a node, n ≤ a → h1 a = some node → nodeChildrenGE node n) ∧
    (∀ f, PyValList.depthList vs ≤ f → readChildren h1 addrs (f + 1) = some vs)
  | .nil, h, n => by
      intro hc h1 n1 addrs heq
      simp only [deepcopyAllocList, Prod.mk.injEq] at heq
      obtain ⟨rfl, rfl, rfl⟩ := heq
      refine ⟨Nat.le_refl n, ?_, fun a _ => rfl, hc, ?_, ?_⟩
      · intro a ha
        cases ha
      · intro a node ha hstore
        rw [hc.1 a ha] at hstore
        cases hstore
      · intro f _
        simp only [readChildren]
  | .cons hd tl, h, n => by
      intro hc h1 n1 addrs heq
      obtain ⟨⟨hA, nA, rootA⟩, heqA⟩ : ∃ r, deepcopyAlloc hd h n = r := ⟨_, rfl⟩
      obtain ⟨hdRoot, hdLt, hdFrame, hdClosed, hdLower, hdRead⟩ :=
        deepcopyAlloc_spec hd h n hc hA nA rootA heqA
      obtain ⟨⟨hB, nB, addrsB⟩, heqB⟩ : ∃ r, deepcopyAllocList tl hA nA = r := ⟨_, rfl⟩
      obtain ⟨tlN, tlAddrs, tlFrame, tlClosed, tlLower, tlRead⟩ :=
        deepcopyAllocList_spec tl hA nA hdClosed hB nB addrsB heqB
      simp only [deepcopyAllocList, heqA, heqB, Prod.mk.injEq] at heq
      obtain ⟨rfl, rfl, rfl⟩ := heq
      refine ⟨by omega, ?_, ?_, tlClosed, ?_, ?_⟩
      · intro a ha
        cases ha with
        | head => exact ⟨hdRoot, by omega⟩
        | tail _ ha =>
            have := tlAddrs a ha
            exact ⟨by omega, this.2⟩
      · intro a ha
        rw [tlFrame a (by omega), hdFrame a ha]
      · intro a node ha hstore
        by_cases haN : a < nA
        · rw [tlFrame a haN] at hstore
          exact hdLower a node ha hstore
        · have h2 := tlLower a node (by omega) hstore
          cases node with
          | hatom s => trivial
          | hcontainer tg cs =>
              intro c hcin
              have := h2 c hcin
              omega
      · intro f hf
        simp only [readChildren]
        have hv : readVal hB rootA f = some hd := by
          rw [readVal_frame hA hB nA (fun a ha => tlFrame a ha)
            (fun a tg cs hstore c hcin => hdClosed.2 a tg cs hstore c hcin)
            f rootA hdLt]
          exact hdRead f (by
            simp only [PyValList.depthList] at hf
            omega)
        rw [hv]
        rw [tlRead f (by
          simp only [PyValList.depthList] at hf
          omega)]
end

/-- What the cache-hit path must guarantee: the returned root is a fresh
address distinct from the stored root, reading it back yields the stored
value, every address reachable from the returned root lies in the fresh
region at or above `n`, and writing any node at any address in that
region leaves the value stored under `storedRoot` unchanged. -/
def CacheHitCopySpec (h : Nat → Option HNode) (n storedRoot fuel : Nat)
    (v : PyVal) : Prop :=
  ∃ h1 n1 copyRoot,
    cache_hit_return h n storedRoot fuel = some (h1, n1, copyRoot) ∧
    copyRoot ≠ storedRoot ∧
    n ≤ copyRoot ∧
    (∀ f, v.depth ≤ f → readVal h1 copyRoot f = some v) ∧
    (∀ a, Reaches h1 copyRoot a → n ≤ a) ∧
    (∀ a nd f, n ≤ a → readVal (heapWrite h1 a nd) storedRoot f =
      readVal h storedRoot f)

/-- A concrete one-node heap used to instantiate the deep-copy theorem:
address 0 holds the stored payload, the heap is closed below 1. -/
def sampleHeap : Nat → Option HNode :=
  fun a => if a = 0 then some (.hatom "payload") else none

/-- C6: on a cache hit the orchestrator returns a deep copy of the cached
payload, never the stored reference: whenever the stored entry denotes a
value `v`, the hit path succeeds and returns a fresh root distinct from
the stored root, the copy reads back equal to `v`, every address the
caller can reach from the copy lies in the fresh region, and mutating any
address in that region leaves the stored entry's value unchanged. -/
theorem cache_hit_deepcopy_spec
    (h : Nat → Option HNode) (n storedRoot fuel : Nat) (v : PyVal)
    (hc : HeapClosed h n) (hroot : storedRoot < n)
    (hstored : readVal h storedRoot fuel = some v) :
    CacheHitCopySpec h n storedRoot fuel v := by
  obtain ⟨⟨h1, n1, copyRoot⟩, heqD⟩ : ∃ r, deepcopyAlloc v h n = r := ⟨_, rfl⟩
  obtain ⟨hR, hRlt, hFrame, hClosed, hLower, hRead⟩ :=
    deepcopyAlloc_spec v h n hc h1 n1 copyRoot heqD
  refine ⟨h1, n1, copyRoot, ?_, ?_, hR, hRead, ?_, ?_⟩
  · simp only [cache_hit_return, hstored, heqD]
  · omega
  · intro a hreach
    induction hreach with
    | refl => exact hR
    | step hb hstore hcin ih =>
        have hge := hLower _ _ ih hstore
        simp only [nodeChildrenGE] at hge
        exact hge _ hcin
  · intro a nd f ha
    exact readVal_frame h (heapWrite h1 a nd) n
      (fun b hb => by
        simp only [heapWrite]
        rw [if_neg (by omega), hFrame b hb])
      hc.2 f storedRoot hroot

/-- Closed instance of the C6 theorem: its hypotheses hold for the
one-node sample heap and the conclusion follows by applying it there. -/
theorem cache_hit_deepcopy_spec_witness :
    HeapClosed sampleHeap 1 ∧ (0 : Nat) < 1 ∧
    readVal sampleHeap 0 1 = some (.atom "payload") ∧
    CacheHitCopySpec sampleHeap 1 0 1 (.atom "payload") := by
  have hc : HeapClosed sampleHeap 1 := by
    constructor
    · intro a ha
      unfold sampleHeap
      rw [if_neg (by omega)]
    · intro a tag cs hstore c hcin
      unfold sampleHeap at hstore
      split at hstore
      · simp at hstore
      · cases hstore
  have hst : readVal sampleHeap 0 1 = some (.atom "payload") := by
    simp [readVal, sampleHeap]
  exact ⟨hc, by decide, hst,
    cache_hit_deepcopy_spec sampleHeap 1 0 1 (.atom "payload") hc (by decide) hst⟩

/-! ## Dijkstra soft failure: invariants of the main loop -/

/-- The element returned by `popMin` was in the queue. -/
theorem popMin_mem : ∀ {cola : List (Nat × Nat)} {x : Nat × Nat}
    {rest : List (Nat × Nat)}, popMin cola = some (x, rest) → x ∈ cola := by
  intro cola
  induction cola with
  | nil => intro x rest h; simp [popMin] at h
  | cons y ys ih =>
      intro x rest h
      rw [popMin] at h
      cases hys : popMin ys with
      | none =>
          rw [hys] at h
          simp only [Option.some.injEq, Prod.mk.injEq] at h
          obtain ⟨rfl, -⟩ := h
          exact List.mem_cons_self _ _
      | some mr =>
          obtain ⟨m, r⟩ := mr
          rw [hys] at h
          by_cases hlt : pairLt m y = true
          · simp only [hlt, if_true, Option.some.injEq, Prod.mk.injEq] at h
            obtain ⟨rfl, -⟩ := h
            exact List.mem_cons_of_mem _ (ih hys)
          · simp only [hlt, if_false, Bool.false_eq_true, Option.some.injEq,
              Prod.mk.injEq] at h
            obtain ⟨rfl, -⟩ := h
            exact List.mem_cons_self _ _

/-- Elements remaining after `popMin` were in the queue. -/
theorem popMin_rest_mem : ∀ {cola : List (Nat × Nat)} {x : Nat × Nat}
    {rest : List (Nat × Nat)}, popMin cola = some (x, rest) →
      ∀ y ∈ rest, y ∈ cola := by
  intro cola
  induction cola with
  | nil => intro x rest h; simp [popMin] at h
  | cons z zs ih =>
      intro x rest h
      rw [popMin] at h
      cases hzs : popMin zs with
      | none =>
          rw [hzs] at h
          simp only [Option.some.injEq, Prod.mk.injEq] at h
          obtain ⟨-, rfl⟩ := h
          intro y hy
          cases hy
      | some mr =>
          obtain ⟨m, r⟩ := mr
          rw [hzs] at h
          by_cases hlt : pairLt m z = true
          · simp only [hlt, if_true, Option.some.injEq, Prod.mk.injEq] at h
            obtain ⟨-, rfl⟩ := h
            intro y hy
            cases hy with
            | head => exact List.mem_cons_self _ _
            | tail _ hy => exact List.mem_cons_of_mem _ (ih hzs y hy)
          · simp only [hlt, if_false, Bool.false_eq_true, Option.some.injEq,
              Prod.mk.injEq] at h
            obtain ⟨-, rfl⟩ := h
            intro y hy
            exact List.mem_cons_of_mem _ hy

/-- `setKey` never removes a key. -/
theorem lookupKey_setKey_isSome {α β : Type} [DecidableEq α]
    (l : List (α × β)) (k n : α) (v : β)
    (h : (lookupKey l n).isSome = true) :
    (lookupKey (setKey l k v) n).isSome = true := by
  by_cases hk : n = k
  · subst hk
    cases hl : lookupKey l n with
    | none => rw [hl] at h; simp at h
    | some w => rw [lookupKey_setKey_self v hl]; rfl
  · rw [lookupKey_setKey_other l v hk]
    exact h

/-- `d[k] = v` makes `d.get(k)` return `v`. -/
theorem lookupKey_assignKey_self {α β : Type} [DecidableEq α]
    (l : List (α × β)) (k : α) (v : β) :
    lookupKey (assignKey l k v) k = some v := by
  unfold assignKey
  cases h : lookupKey l k with
  | none => exact lookupKey_append_single l v h
  | some w => exact lookupKey_setKey_self v h

/-- `d[k] = v` leaves `d.get(k2)` unchanged for `k2 ≠ k`. -/
theorem lookupKey_assignKey_other {α β : Type} [DecidableEq α]
    (l : List (α × β)) {k k2 : α} (v : β) (h : k2 ≠ k) :
    lookupKey (assignKey l k v) k2 = lookupKey l k2 := by
  unfold assignKey
  cases hl : lookupKey l k with
  | none => exact lookupKey_append_single_other l v h
  | some w => exact lookupKey_setKey_other l v h

/-- Looking up in the all-infinite initial distance dict built by the
comprehension `{nodo: float("inf") for nodo in grafo}`. -/
theorem lookupKey_map_none (l : Grafo) (n : Nat) :
    lookupKey (l.map (fun p => (p.1, (none : Option Nat)))) n =
      (lookupKey l n).map (fun _ => (none : Option Nat)) := by
  induction l with
  | nil => rfl
  | cons p rest ih =>
      obtain ⟨k, v⟩ := p
      simp only [List.map_cons, lookupKey]
      split
      · rfl
      · exact ih

/-- On a well-formed graph, relaxing the neighbor list of a reachable
node raises no `KeyError` and preserves the loop invariants: the
distance dict keeps a key for every graph node, every queued node is
reachable from the source and is a graph key, and every key of the
predecessor dict is reachable from the source. -/
theorem relaxNeighbors_ok (grafo : Grafo) (inicio : Nat)
    (hwf : GrafoWF grafo) (ad an : Nat)
    (han : ReachableG grafo inicio an) :
    ∀ (ns : List (Nat × Nat)) (dist : List (Nat × Option Nat))
      (anterior cola : List (Nat × Nat)),
      (∀ p ∈ ns, HasEdge grafo an p.1) →
      (∀ n, (lookupKey grafo n).isSome = true → (lookupKey dist n).isSome = true) →
      (∀ p ∈ cola, ReachableG grafo inicio p.2 ∧ (lookupKey grafo p.2).isSome = true) →
      (∀ k v, lookupKey anterior k = some v → ReachableG grafo inicio k) →
      ∃ d2 a2 c2,
        relaxNeighbors ad an ns dist anterior cola = .ok (d2, a2, c2) ∧
        (∀ n, (lookupKey grafo n).isSome = true → (lookupKey d2 n).isSome = true) ∧
        (∀ p ∈ c2, ReachableG grafo inicio p.2 ∧ (lookupKey grafo p.2).isSome = true) ∧
        (∀ k v, lookupKey a2 k = some v → ReachableG grafo inicio k) := by
  intro ns
  induction ns with
  | nil =>
      intro dist anterior cola hedge Hdist Hcola Hant
      exact ⟨dist, anterior, cola, rfl, Hdist, Hcola, Hant⟩
  | cons p rest ih =>
      intro dist anterior cola hedge Hdist Hcola Hant
      obtain ⟨vecino, peso⟩ := p
      have hve : HasEdge grafo an vecino := hedge (vecino, peso) (List.mem_cons_self _ _)
      have hvg : (lookupKey grafo vecino).isSome = true := by
        obtain ⟨ns0, w0, hlk0, hmem0⟩ := hve
        obtain ⟨ms, hms⟩ := hwf.2 an ns0 hlk0 (vecino, w0) hmem0
        rw [hms]; rfl
      have hvd : (lookupKey dist vecino).isSome = true := Hdist vecino hvg
      cases hdv : lookupKey dist vecino with
      | none => rw [hdv] at hvd; simp at hvd
      | some dv =>
          rw [relaxNeighbors, hdv]
          simp only []
          by_cases hlt : ltInf (ad + peso) dv = true
          · rw [if_pos hlt]
            exact ih (setKey dist vecino (some (ad + peso)))
              (assignKey anterior vecino an)
              (cola ++ [(ad + peso, vecino)])
              (fun q hq => hedge q (List.mem_cons_of_mem _ hq))
              (fun n hn => lookupKey_setKey_isSome dist vecino n
                (some (ad + peso)) (Hdist n hn))
              (fun q hq => by
                rcases List.mem_append.mp hq with hq | hq
                · exact Hcola q hq
                · have hq2 : q = (ad + peso, vecino) := by simpa using hq
                  subst hq2
                  exact ⟨ReachableG.step han hve, hvg⟩)
              (fun k v hk => by
                by_cases hkv : k = vecino
                · subst hkv
                  exact ReachableG.step han hve
                · rw [lookupKey_assignKey_other anterior an hkv] at hk
                  exact Hant k v hk)
          · rw [if_neg hlt]
            exact ih dist anterior cola
              (fun q hq => hedge q (List.mem_cons_of_mem _ hq))
              Hdist Hcola Hant

/-- On a well-formed graph, starting from invariant-satisfying state the
main loop raises no error and every key of the final predecessor dict is
reachable from the source. -/
theorem dijkstraLoop_reaches (grafo : Grafo) (inicio destino : Nat)
    (hwf : GrafoWF grafo) :
    ∀ (dist : List (Nat × Option Nat)) (anterior cola : List (Nat × Nat)),
      (∀ n, (lookupKey grafo n).isSome = true → (lookupKey dist n).isSome = true) →
      (∀ p ∈ cola, ReachableG grafo inicio p.2 ∧ (lookupKey grafo p.2).isSome = true) →
      (∀ k v, lookupKey anterior k = some v → ReachableG grafo inicio k) →
      ∃ distF antF,
        dijkstraLoop grafo destino dist anterior cola = .ok (distF, antF) ∧
        ∀ k v, lookupKey antF k = some v → ReachableG grafo inicio k := by
  intro dist anterior cola
  induction dist, anterior, cola using dijkstraLoop.induct grafo destino with
  | case1 dist anterior cola hpop =>
      intro Hdist Hcola Hant
      refine ⟨dist, anterior, ?_, Hant⟩
      rw [dijkstraLoop]
      split
      next heq => rfl
      next ad2 an2 rest2 heq =>
        rw [hpop] at heq
        cases heq
  | case2 dist anterior cola ad colaRest hpop =>
      intro Hdist Hcola Hant
      refine ⟨dist, anterior, ?_, Hant⟩
      rw [dijkstraLoop]
      split
      next heq => rfl
      next ad2 an2 rest2 heq =>
        rw [hpop] at heq
        simp only [Option.some.injEq, Prod.mk.injEq] at heq
        obtain ⟨⟨rfl, rfl⟩, rfl⟩ := heq
        rw [if_pos rfl]
  | case3 dist anterior cola ad an colaRest hpop hne hnone =>
      intro Hdist Hcola Hant
      have hmem := popMin_mem hpop
      obtain ⟨-, hga⟩ := Hcola (ad, an) hmem
      rw [hnone] at hga
      simp at hga
  | case4 dist anterior cola ad an colaRest hpop hne vecinos hlk e hrel =>
      intro Hdist Hcola Hant
      have hmem := popMin_mem hpop
      obtain ⟨hra, -⟩ := Hcola (ad, an) hmem
      obtain ⟨d2, a2, c2, heq, -, -, -⟩ :=
        relaxNeighbors_ok grafo inicio hwf ad an hra vecinos dist anterior colaRest
          (fun p hp => ⟨vecinos, p.2, hlk, by simpa using hp⟩)
          Hdist
          (fun p hp => Hcola p (popMin_rest_mem hpop p hp))
          Hant
      rw [hrel] at heq
      cases heq
  | case5 dist anterior cola ad an colaRest hpop hne vecinos hlk d2 a2 c2 hrel ih =>
      intro Hdist Hcola Hant
      have hmem := popMin_mem hpop
      obtain ⟨hra, -⟩ := Hcola (ad, an) hmem
      obtain ⟨d2', a2', c2', heq, Hd2, Hc2, Ha2⟩ :=
        relaxNeighbors_ok grafo inicio hwf ad an hra vecinos dist anterior colaRest
          (fun p hp => ⟨vecinos, p.2, hlk, by simpa using hp⟩)
          Hdist
          (fun p hp => Hcola p (popMin_rest_mem hpop p hp))
          Hant
      rw [hrel] at heq
      simp only [Except.ok.injEq, Prod.mk.injEq] at heq
      obtain ⟨rfl, rfl, rfl⟩ := heq
      obtain ⟨distF, antF, hloop, hant⟩ := ih Hd2 Hc2 Ha2
      refine ⟨distF, antF, ?_, hant⟩
      rw [dijkstraLoop]
      split
      next heq =>
        rw [hpop] at heq
        cases heq
      next ad2 an2 rest2 heq =>
        rw [hpop] at heq
        simp only [Option.some.injEq, Prod.mk.injEq] at heq
        obtain ⟨⟨rfl, rfl⟩, rfl⟩ := heq
        rw [if_neg hne]
        simp only [hlk]
        split
        next e2 heq2 =>
          rw [hrel] at heq2
          cases heq2
        next d2x a2x c2x heq2 =>
          rw [hrel] at heq2
          simp only [Except.ok.injEq, Prod.mk.injEq] at heq2
          obtain ⟨rfl, rfl, rfl⟩ := heq2
          exact hloop

/-- On a well-formed graph, `dijkstra` from a node of the graph to an
unreachable destination returns the empty path without raising. -/
theorem dijkstra_unreachable (grafo : Grafo) (inicio destino : Nat)
    (hwf : GrafoWF grafo) (hin : (lookupKey grafo inicio).isSome = true)
    (hnr : ¬ ReachableG grafo inicio destino) :
    dijkstra grafo inicio destino = .ok [] := by
  have hne : ¬ destino = inicio := by
    intro he
    exact hnr (by rw [he]; exact ReachableG.refl)
  have Hdist0 : ∀ n, (lookupKey grafo n).isSome = true →
      (lookupKey (assignKey (grafo.map (fun p => (p.1, (none : Option Nat))))
        inicio (some 0)) n).isSome = true := by
    intro n hn
    by_cases hni : n = inicio
    · subst hni
      rw [lookupKey_assignKey_self]
      rfl
    · rw [lookupKey_assignKey_other _ (some 0) hni, lookupKey_map_none]
      cases hg : lookupKey grafo n with
      | none => rw [hg] at hn; simp at hn
      | some ns => rfl
  have Hcola0 : ∀ p ∈ [((0 : Nat), inicio)], ReachableG grafo inicio p.2 ∧
      (lookupKey grafo p.2).isSome = true := by
    intro p hp
    have hp2 : p = (0, inicio) := by simpa using hp
    subst hp2
    exact ⟨ReachableG.refl, hin⟩
  have Hant0 : ∀ k v, lookupKey ([] : List (Nat × Nat)) k = some v →
      ReachableG grafo inicio k := by
    intro k v hk
    simp [lookupKey] at hk
  obtain ⟨distF, antF, hloop, hant⟩ :=
    dijkstraLoop_reaches grafo inicio destino hwf _ [] [(0, inicio)]
      Hdist0 Hcola0 Hant0
  have hdest : lookupKey antF destino = none := by
    cases hd : lookupKey antF destino with
    | none => rfl
    | some v => exact absurd (hant destino v hd) hnr
  simp only [dijkstra]
  simp only [hloop]
  rw [walkBack]
  simp only [hdest]
  rw [if_neg hne]

/-- The three-node example graph of the spec: edges 1→2 (weight 5),
1→3 (weight 20), 2→3 (weight 5). -/
def exGrafo : Grafo := [(1, [(2, 5), (3, 20)]), (2, [(3, 5)]), (3, [])]

/-- C7: the graph engine's `dijkstra` computes a minimum-weight directed
path: on the spec's three-node example it returns the path `[1, 2, 3]`
of total weight 10 rather than the direct edge of weight 20, and for
every well-formed graph and every source node of the graph with no
directed path to the destination it returns an empty path and raises no
error. -/
theorem dijkstra_spec :
    (dijkstra exGrafo 1 3 = .ok [1, 2, 3] ∧
      pathWeight exGrafo [1, 2, 3] = some 10 ∧
      pathWeight exGrafo [1, 3] = some 20) ∧
    ∀ (grafo : Grafo) (inicio destino : Nat),
      GrafoWF grafo → (lookupKey grafo inicio).isSome = true →
      ¬ ReachableG grafo inicio destino →
      dijkstra grafo inicio destino = .ok [] := by
  constructor
  · refine ⟨?_, by decide, by decide⟩
    simp [dijkstra, dijkstraLoop, relaxNeighbors, popMin, pairLt, ltInf,
      lookupKey, setKey, assignKey, walkBack, countInf, sumFinite, exGrafo]
  · intro grafo inicio destino hwf hin hnr
    exact dijkstra_unreachable grafo inicio destino hwf hin hnr

/-! ## Step-text normalization: whitespace collapse and truncation -/

/-- Two adjacent characters of a normalized text are never both
whitespace (the shape `re.sub(r"\s+", " ", …)` guarantees). -/
def wsOk (a b : Char) : Prop := ¬(pyIsSpace a = true ∧ pyIsSpace b = true)

instance : DecidableRel wsOk := fun a b =>
  inferInstanceAs (Decidable ¬(pyIsSpace a = true ∧ pyIsSpace b = true))

/-- The whitespace-collapse worker emits no two adjacent whitespace
characters, and in run-mode it never emits a leading space. -/
theorem collapseWsAux_chain : ∀ l : List Char,
    List.Chain' wsOk (collapseWsAux false l) ∧
    List.Chain' wsOk (collapseWsAux true l) ∧
    ∀ c, (collapseWsAux true l).head? = some c → pyIsSpace c = false := by
  intro l
  induction l with
  | nil =>
      refine ⟨List.chain'_nil, List.chain'_nil, ?_⟩
      intro c hc
      simp [collapseWsAux] at hc
  | cons a rest ih =>
      obtain ⟨ihf, iht, ihh⟩ := ih
      by_cases ha : pyIsSpace a = true
      · have hf : collapseWsAux false (a :: rest) = ' ' :: collapseWsAux true rest := by
          simp [collapseWsAux, ha]
        have ht : collapseWsAux true (a :: rest) = collapseWsAux true rest := by
          simp [collapseWsAux, ha]
        refine ⟨?_, ?_, ?_⟩
        · rw [hf]
          refine List.chain'_cons'.mpr ⟨?_, iht⟩
          intro y hy hc
          have := ihh y hy
          rw [this] at hc
          exact absurd hc.2 (by simp)
        · rw [ht]
          exact iht
        · intro c hc
          rw [ht] at hc
          exact ihh c hc
      · have hf : collapseWsAux false (a :: rest) = a :: collapseWsAux false rest := by
          simp [collapseWsAux, ha]
        have ht : collapseWsAux true (a :: rest) = a :: collapseWsAux false rest := by
          simp [collapseWsAux, ha]
        refine ⟨?_, ?_, ?_⟩
        · rw [hf]
          exact List.chain'_cons'.mpr ⟨fun y hy hc => ha hc.1, ihf⟩
        · rw [ht]
          exact List.chain'_cons'.mpr ⟨fun y hy hc => ha hc.1, ihf⟩
        · intro c hc
          rw [ht] at hc
          simp only [List.head?_cons, Option.some.injEq] at hc
          subst hc
          simpa using ha

/-- `re.sub(r"\s+", " ", s)` leaves no two adjacent whitespace
characters. -/
theorem collapseWs_chain (l : List Char) : List.Chain' wsOk (collapseWs l) :=
  (collapseWsAux_chain l).1

theorem wsOk_symm {a b : Char} (h : wsOk a b) : wsOk b a := fun hc => h ⟨hc.2, hc.1⟩

/-- Adjacent-whitespace freedom is mirror-symmetric. -/
theorem wsOk_reverse {l : List Char} (h : List.Chain' wsOk l) :
    List.Chain' wsOk l.reverse := by
  rw [List.chain'_reverse]
  exact h.imp fun a b hab => wsOk_symm hab

/-- `str.rstrip()` preserves adjacent-whitespace freedom. -/
theorem wsOk_rstrip {l : List Char} (h : List.Chain' wsOk l) :
    List.Chain' wsOk (rstripChars l) := by
  unfold rstripChars
  exact wsOk_reverse
    ( List.Chain'.suffix (wsOk_reverse h) (List.dropWhile_suffix pyIsSpace))

/-- `str.strip()` preserves adjacent-whitespace freedom. -/
theorem wsOk_strip {l : List Char} (h : List.Chain' wsOk l) :
    List.Chain' wsOk (stripChars l) := by
  unfold stripChars lstripChars
  exact wsOk_rstrip ( List.Chain'.suffix h (List.dropWhile_suffix pyIsSpace))

/-- `str.rstrip()` never lengthens a string. -/
theorem rstripChars_length_le (l : List Char) : (rstripChars l).length ≤ l.length := by
  unfold rstripChars
  rw [List.length_reverse]
  have h2 : List.dropWhile pyIsSpace l.reverse <:+ l.reverse :=
    List.dropWhile_suffix pyIsSpace
  have h3 := List.Sublist.length_le ( List.IsSuffix.sublist h2)
  rw [List.length_reverse] at h3
  exact h3

/-- The final truncation step keeps the text within the limit. -/
theorem truncate_length_le (l : List Char) :
    (if MAX_STEP_TEXT_LENGTH < l.length then
        rstripChars (l.take (MAX_STEP_TEXT_LENGTH - 3)) ++ "...".toList
      else l).length ≤ MAX_STEP_TEXT_LENGTH := by
  split
  next h =>
    rw [List.length_append]
    have h1 := rstripChars_length_le (l.take (MAX_STEP_TEXT_LENGTH - 3))
    have h2 : (l.take (MAX_STEP_TEXT_LENGTH - 3)).length ≤ MAX_STEP_TEXT_LENGTH - 3 := by
      rw [List.length_take]
      exact min_le_left _ _
    have h3 : ("...".toList : List Char).length = 3 := rfl
    simp only [MAX_STEP_TEXT_LENGTH] at h1 h2 ⊢
    omega
  next h =>
    simp only [MAX_STEP_TEXT_LENGTH] at h ⊢
    omega

/-- The final truncation step preserves adjacent-whitespace freedom: the
kept prefix is a contiguous piece of the normalized text and the
appended ellipsis starts with a non-space character. -/
theorem truncate_chain' (l : List Char) (h : List.Chain' wsOk l) :
    List.Chain' wsOk (if MAX_STEP_TEXT_LENGTH < l.length then
        rstripChars (l.take (MAX_STEP_TEXT_LENGTH - 3)) ++ "...".toList
      else l) := by
  split
  · refine List.chain'_append.mpr ⟨?_, ?_, ?_⟩
    · exact wsOk_rstrip ( List.Chain'.take h _)
    · show List.Chain' wsOk ['.', '.', '.']
      refine List.chain'_cons.mpr ⟨?_, List.chain'_cons.mpr ⟨?_, ?_⟩⟩
      · exact fun hc => absurd hc.1 (by decide)
      · exact fun hc => absurd hc.1 (by decide)
      · exact List.chain'_singleton _
    · intro x hx y hy
      rw [show ("...".toList).head? = some '.' from rfl, Option.mem_def] at hy
      injection hy with hy
      subst hy
      intro hc
      exact absurd hc.2 (by decide)
  · exact h

/-- The normalized step text never exceeds 240 characters. -/
theorem normalize_step_text_length (instruction name : Option (List Char))
    (idx : Nat) :
    (normalize_step_text instruction name idx).length ≤ MAX_STEP_TEXT_LENGTH := by
  unfold normalize_step_text
  exact truncate_length_le _

/-- The normalized step text never holds two adjacent whitespace
characters. -/
theorem normalize_step_text_collapsed (instruction name : Option (List Char))
    (idx : Nat) :
    List.Chain' wsOk (normalize_step_text instruction name idx) := by
  unfold normalize_step_text
  exact truncate_chain' _ (wsOk_strip (collapseWs_chain _))

/-- When the stripped name is already a case-insensitive substring of the
stripped (non-blank) instruction, nothing is appended: the result equals
the result computed with no name at all. -/
theorem normalize_step_text_no_append (s nm : List Char) (idx : Nat)
    (hne : ¬ stripChars s = [])
    (hsub : hasSubstring (lowerChars (stripChars s)) (lowerChars (stripChars nm)) = true) :
    normalize_step_text (some s) (some nm) idx =
      normalize_step_text (some s) none idx := by
  unfold normalize_step_text
  simp only []
  rw [if_neg hne]
  rw [if_neg (show ¬(stripChars nm ≠ [] ∧
    ¬hasSubstring (lowerChars (stripChars s)) (lowerChars (stripChars nm)) = true)
    from fun hc => hc.2 hsub)]
  rw [if_neg (show ¬(([] : List Char) ≠ [] ∧
    ¬hasSubstring (lowerChars (stripChars s)) (lowerChars ([] : List Char)) = true)
    from fun hc => hc.1 rfl)]

/-- C8: what the step-text normalizer guarantees.  The result never
exceeds 240 characters; it never holds two adjacent whitespace
characters; when the stripped name is already a case-insensitive
substring of the stripped non-blank instruction the text equals the text
computed with no name at all (nothing is appended); on the spec's
example the name "Pasillo A" is appended and occurs exactly once, and
when the instruction already contains it once, it still occurs exactly
once.  The original claim's "the name occurs exactly once" does not hold
in general (see the counterexample: duplicated occurrences survive, and
truncation can cut the appended name off). -/
theorem normalize_step_text_spec :
    (∀ (instruction name : Option (List Char)) (idx : Nat),
        (normalize_step_text instruction name idx).length ≤ MAX_STEP_TEXT_LENGTH) ∧
    (∀ (instruction name : Option (List Char)) (idx : Nat),
        List.Chain' wsOk (normalize_step_text instruction name idx)) ∧
    (∀ (s nm : List Char) (idx : Nat), ¬ stripChars s = [] →
        hasSubstring (lowerChars (stripChars s)) (lowerChars (stripChars nm)) = true →
        normalize_step_text (some s) (some nm) idx =
          normalize_step_text (some s) none idx) ∧
    (normalize_step_text (some "Gira a la izquierda".toList)
        (some "Pasillo A".toList) 3 = "Gira a la izquierda en Pasillo A".toList ∧
      countSub "Gira a la izquierda en Pasillo A".toList "Pasillo A".toList = 1) ∧
    (normalize_step_text (some "Avanza por Pasillo A".toList)
        (some "Pasillo A".toList) 3 = "Avanza por Pasillo A".toList ∧
      countSub "Avanza por Pasillo A".toList "Pasillo A".toList = 1) :=
  ⟨normalize_step_text_length, normalize_step_text_collapsed,
    normalize_step_text_no_append,
    ⟨by decide, by decide⟩, ⟨by decide, by decide⟩⟩

set_option maxRecDepth 10000 in
/-- The claim's "so the name occurs exactly once" is false: a name
already present twice in the instruction is left duplicated, and when
the appended text overflows 240 characters the truncation cuts the
appended name off entirely, leaving zero occurrences. -/
theorem normalize_step_text_counterexample :
    countSub (normalize_step_text (some "Pasillo A Pasillo A".toList)
        (some "Pasillo A".toList) 1) "Pasillo A".toList = 2 ∧
    countSub (normalize_step_text (some (List.replicate 250 'A'))
        (some "Pasillo".toList) 1) "Pasillo".toList = 0 :=
  ⟨by decide, by decide⟩

end UnisonMap
